import Mathlib

/-!
Shallow embedding of `src/warehouse/oso_dagster/goldsky.py`: the checkpoint
scheduling queue (`GoldskyQueueItem`, `GoldskyQueue`, `GoldskyQueues`) and the
batch merge / deduplication / tombstone protocol (`GoldskyDuckDB.load_and_merge`,
`GoldskyDuckDB.remove_dupes`, `GoldskyDuckDB.remove_dupe_for_batch`).

The DuckDB connection state is modelled as an explicit record of named table
families (working tables live in the connection, `gs://` parquet artifacts live
in the object store); a record is an `id` key plus an opaque payload `val`, and
the `checkpoint_order` column added by the blob-loading loop is the extra field
of `MRow`.  Missing files and missing tables make a statement fail, which is
modelled by an error result carrying the state at the point of failure, exactly
as a raised exception leaves the connection.
-/

/-- A record as stored in an upstream blob: an `id` key plus an opaque payload
(`val` stands for all remaining columns, so two versions of a record differ in
`val`). -/
structure Row where
  id : Nat
  val : Nat
deriving DecidableEq, Repr

/-- A row of a working or merged table: the `checkpoint_order` column prepended
by `SELECT {i} AS checkpoint_order, *` in the blob-loading loop, then the record
itself. -/
structure MRow where
  checkpoint_order : Nat
  id : Nat
  val : Nat
deriving DecidableEq, Repr

/-- Contents of the temp table `checkpoint_{worker}_{batch_id}_{i}`: every row
of blob `i` tagged with `checkpoint_order = i`. -/
def tagBlob (i : Nat) (rows : List Row) : List MRow :=
  rows.map (fun r => ⟨i, r.id, r.val⟩)

/-- Point update of a `(worker, batch_id)`-addressed table family. -/
def upd2 {α : Type} (f : String → Nat → Option α) (w : String) (b : Nat)
    (v : Option α) : String → Nat → Option α :=
  fun w' b' => if w' = w ∧ b' = b then v else f w' b'

/-- Point update of a `(worker, batch_id, i)`-addressed table family. -/
def upd3 {α : Type} (f : String → Nat → Nat → Option α) (w : String) (b i : Nat)
    (v : Option α) : String → Nat → Nat → Option α :=
  fun w' b' i' => if w' = w ∧ b' = b ∧ i' = i then v else f w' b' i'

/-- The state visible to `GoldskyDuckDB`: the working tables of the DuckDB
connection (`checkpoint_…`, `merged_…`, `merged_ids_…`, `delete_patch_…`,
`deduped_…`) and the durable parquet artifacts in the bucket
(`table_{b}.parquet`, `delete_{b}.parquet`, `deduped_{b}.parquet`).
`none` means the table or file does not exist. -/
@[ext]
structure DB where
  checkpointTT : String → Nat → Nat → Option (List MRow)
  merged : String → Nat → Option (List MRow)
  mergedIds : String → Nat → Option (List Nat)
  deletePatch : String → Nat → Option (List Nat)
  deduped : String → Nat → Option (List MRow)
  durTable : String → Nat → Option (List MRow)
  durDelete : String → Nat → Option (List Nat)
  durDeduped : String → Nat → Option (List MRow)

/-- A connection with no working tables and an empty bucket. -/
def emptyDB : DB :=
  ⟨fun _ _ _ => none, fun _ _ => none, fun _ _ => none, fun _ _ => none,
   fun _ _ => none, fun _ _ => none, fun _ _ => none, fun _ _ => none⟩

def putCTT (db : DB) (w : String) (b i : Nat) (v : Option (List MRow)) : DB :=
  { db with checkpointTT := upd3 db.checkpointTT w b i v }

def putMerged (db : DB) (w : String) (b : Nat) (v : Option (List MRow)) : DB :=
  { db with merged := upd2 db.merged w b v }

def putMergedIds (db : DB) (w : String) (b : Nat) (v : Option (List Nat)) : DB :=
  { db with mergedIds := upd2 db.mergedIds w b v }

def putDeletePatch (db : DB) (w : String) (b : Nat) (v : Option (List Nat)) : DB :=
  { db with deletePatch := upd2 db.deletePatch w b v }

def putDeduped (db : DB) (w : String) (b : Nat) (v : Option (List MRow)) : DB :=
  { db with deduped := upd2 db.deduped w b v }

def putDurTable (db : DB) (w : String) (b : Nat) (v : Option (List MRow)) : DB :=
  { db with durTable := upd2 db.durTable w b v }

def putDurDelete (db : DB) (w : String) (b : Nat) (v : Option (List Nat)) : DB :=
  { db with durDelete := upd2 db.durDelete w b v }

def putDurDeduped (db : DB) (w : String) (b : Nat) (v : Option (List MRow)) : DB :=
  { db with durDeduped := upd2 db.durDeduped w b v }

/-- Events recorded by a `load_and_merge` run, one per SQL statement that
changes state, in execution order. -/
inductive Ev where
  | createCheckpointTT (i : Nat)
  | createMergedTable
  | mergeDelete (i : Nat)
  | mergeInsert (i : Nat)
  | copyTable (b : Nat)
  | createMergedIds (b : Nat)
  | createDeletePatch (b : Nat)
  | dropMergedIds (b : Nat)
  | copyDeletePatch (b : Nat)
  | dropDeletePatchTable (b : Nat)
  | dropMergedTable
  | dropCheckpointTT (i : Nat)
deriving DecidableEq, Repr

/-- Result of one `load_and_merge` invocation: `err = some msg` models a raised
exception (the connection state `db` keeps every mutation made before the
failure), `trace` lists the state-changing statements that executed. -/
structure RunResult where
  err : Option String
  db : DB
  trace : List Ev

/-- The ascending index list `[s, s+1, …, s+n-1]`, standing for Python's
`for i in range(n)` loops (shifted by the start index). -/
def idxList : Nat → Nat → List Nat
  | _, 0 => []
  | s, n + 1 => s :: idxList (s + 1) n

/-- Blob-loading loop of `load_and_merge` (source lines 185-198): for each `i`,
read blob `blob_names[i]` from the bucket and `CREATE TEMP TABLE
checkpoint_{worker}_{batch_id}_{i}` holding its rows tagged with
`checkpoint_order = i`.  A missing blob makes `read_parquet` raise; a
pre-existing temp table makes `CREATE TEMP TABLE` raise. -/
def loadBlobs (blobs : String → Option (List Row)) (worker : String) (batch_id : Nat) :
    Nat → List String → DB → List Ev → RunResult
  | _, [], db, tr => ⟨none, db, tr⟩
  | i, nm :: rest, db, tr =>
    match blobs nm with
    | none => ⟨some ("failed to read blob " ++ nm), db, tr⟩
    | some content =>
      match db.checkpointTT worker batch_id i with
      | some _ => ⟨some "checkpoint temp table already exists", db, tr⟩
      | none =>
        loadBlobs blobs worker batch_id (i + 1) rest
          (putCTT db worker batch_id i (some (tagBlob i content)))
          (tr ++ [Ev.createCheckpointTT i])

/-- One iteration of the merge loop (source lines 210-238): given the current
merged table `m` and the next checkpoint table `ch`, if the inner join on `id`
is non-empty then `DELETE FROM merged WHERE id IN (SELECT m.id … JOIN ch …)`,
then `INSERT INTO merged SELECT * FROM ch`. -/
def mergeStep (m ch : List MRow) : List MRow :=
  (if m.any (fun r => ch.any (fun c => c.id == r.id)) then
     m.filter (fun r => ! ch.any (fun c => c.id == r.id))
   else m) ++ ch

/-- The merge loop of `load_and_merge` over the checkpoint indices
`[1, …, size-1]`, reading the merged table and each checkpoint temp table from
the connection and writing the merged table back (source lines 210-238). -/
def mergeSteps (worker : String) (batch_id : Nat) :
    List Nat → DB → List Ev → RunResult
  | [], db, tr => ⟨none, db, tr⟩
  | i :: rest, db, tr =>
    match db.merged worker batch_id, db.checkpointTT worker batch_id i with
    | some m, some ch =>
      let tr1 := if m.any (fun r => ch.any (fun c => c.id == r.id))
                 then tr ++ [Ev.mergeDelete i] else tr
      mergeSteps worker batch_id rest
        (putMerged db worker batch_id (some (mergeStep m ch)))
        (tr1 ++ [Ev.mergeInsert i])
    | _, _ => ⟨some "catalog error in merge loop", db, tr⟩

/-- The delete patch computed by `SELECT pmi.id FROM merged_ids_{prev} AS pmi
INNER JOIN merged AS m ON m.id = pmi.id` (source lines 256-265): one output row
per matching pair, keeping `pmi.id`. -/
def patchOf (prevIds : List Nat) (m : List MRow) : List Nat :=
  (prevIds.map (fun p => (m.filter (fun r => r.id == p)).map (fun _ => p))).flatten

/-- Reconciliation step of `load_and_merge` (source lines 253-280): for
`batch_id > 0`, create `delete_patch_{worker}_{batch_id-1}` from the previous
batch's `merged_ids` table joined with the current merged table, drop the
previous `merged_ids` table, copy the delete patch to its durable path, and
drop the delete patch working table.  For `batch_id = 0` nothing happens. -/
def reconcile (db : DB) (worker : String) (batch_id : Nat) (m : List MRow)
    (tr : List Ev) : RunResult :=
  if batch_id > 0 then
    let prev := batch_id - 1
    match db.mergedIds worker prev with
    | none => ⟨some "catalog error: table merged_ids does not exist", db, tr⟩
    | some prevIds =>
      let patch := patchOf prevIds m
      let db6 := putDeletePatch db worker prev (some patch)
      let db7 := putMergedIds db6 worker prev none
      match db7.deletePatch worker prev with
      | none => ⟨some "catalog error: table delete_patch does not exist", db7,
                 tr ++ [Ev.createDeletePatch prev, Ev.dropMergedIds prev]⟩
      | some p =>
        let db8 := putDurDelete db7 worker prev (some p)
        let db9 := putDeletePatch db8 worker prev none
        ⟨none, db9, tr ++ [Ev.createDeletePatch prev, Ev.dropMergedIds prev,
                           Ev.copyDeletePatch prev, Ev.dropDeletePatchTable prev]⟩
  else ⟨none, db, tr⟩

/-- Cleanup loop over the checkpoint temp tables (source lines 287-298):
`DROP TABLE` each one, ignoring errors for tables that do not exist. -/
def dropTTs (worker : String) (batch_id : Nat) :
    List Nat → DB → List Ev → DB × List Ev
  | [], db, tr => (db, tr)
  | i :: rest, db, tr =>
    match db.checkpointTT worker batch_id i with
    | none => dropTTs worker batch_id rest db tr
    | some _ =>
      dropTTs worker batch_id rest (putCTT db worker batch_id i none)
        (tr ++ [Ev.dropCheckpointTT i])

/-- Final statements of `load_and_merge` (source lines 281-298): drop the
merged working table, then drop every checkpoint temp table. -/
def finishRun (db : DB) (worker : String) (batch_id : Nat) (size : Nat)
    (tr : List Ev) : RunResult :=
  match db.merged worker batch_id with
  | none => ⟨some "catalog error: merged table does not exist", db, tr⟩
  | some _ =>
    let db1 := putMerged db worker batch_id none
    let p := dropTTs worker batch_id (idxList 0 size) db1 (tr ++ [Ev.dropMergedTable])
    ⟨none, p.1, p.2⟩

/-- `GoldskyDuckDB.load_and_merge` (source lines 177-298): load every blob into
a checkpoint temp table, seed the merged table with checkpoint table `0`, run
the forward merge loop over checkpoints `1..size-1`, copy the merged table to
its durable path, snapshot its ids into `merged_ids_{worker}_{batch_id}`,
reconcile against the previous batch when `batch_id > 0`, then drop the working
tables. -/
def load_and_merge (blobs : String → Option (List Row)) (db : DB)
    (worker : String) (batch_id : Nat) (blob_names : List String) : RunResult :=
  let size := blob_names.length
  let r1 := loadBlobs blobs worker batch_id 0 blob_names db []
  match r1.err with
  | some e => ⟨some e, r1.db, r1.trace⟩
  | none =>
    match r1.db.checkpointTT worker batch_id 0 with
    | none => ⟨some "catalog error: checkpoint table 0 does not exist", r1.db, r1.trace⟩
    | some t0 =>
      let db2 := putMerged r1.db worker batch_id (some t0)
      let r3 := mergeSteps worker batch_id (idxList 1 (size - 1)) db2
        (r1.trace ++ [Ev.createMergedTable])
      match r3.err with
      | some e => ⟨some e, r3.db, r3.trace⟩
      | none =>
        match r3.db.merged worker batch_id with
        | none => ⟨some "catalog error: merged table does not exist", r3.db, r3.trace⟩
        | some m =>
          let db4 := putDurTable r3.db worker batch_id (some m)
          let db5 := putMergedIds db4 worker batch_id (some (m.map (fun r => r.id)))
          let r6 := reconcile db5 worker batch_id m
            (r3.trace ++ [Ev.copyTable batch_id, Ev.createMergedIds batch_id])
          match r6.err with
          | some _ => r6
          | none => finishRun r6.db worker batch_id size r6.trace

/-- `GoldskyDuckDB.remove_dupe_for_batch` (source lines 151-175): re-create the
`deduped_{worker}_{batch_id}` table from the batch's durable merged table; when
the batch is not the last, delete every row whose id appears in the batch's
durable delete patch; copy the result to the durable deduped path. -/
def remove_dupe_for_batch (db : DB) (worker : String) (batch_id : Nat)
    (last : Bool) : Except String DB :=
  match db.durTable worker batch_id with
  | none => Except.error "failed to read table parquet"
  | some tbl =>
    let db1 := putDeduped db worker batch_id (some tbl)
    if last then
      Except.ok (putDurDeduped db1 worker batch_id (some tbl))
    else
      match db1.durDelete worker batch_id with
      | none => Except.error "failed to read delete parquet"
      | some delIds =>
        let ded := tbl.filter (fun r => ! delIds.contains r.id)
        let db2 := putDeduped db1 worker batch_id (some ded)
        Except.ok (putDurDeduped db2 worker batch_id (some ded))

/-- The loop of `remove_dupes` over `batches[:-1]` (source line 147-148). -/
def removeDupesAux (worker : String) : List Nat → DB → Except String DB
  | [], db => Except.ok db
  | b :: rest, db =>
    match remove_dupe_for_batch db worker b false with
    | Except.error e => Except.error e
    | Except.ok db' => removeDupesAux worker rest db'

/-- `GoldskyDuckDB.remove_dupes` (source lines 146-149): process every batch in
`batches[:-1]` with `last = False`, then index `batches[-1]` (raising
`IndexError` on an empty list) and process it with `last = True`. -/
def remove_dupes (db : DB) (worker : String) (batches : List Nat) :
    Except String DB :=
  match removeDupesAux worker batches.dropLast db with
  | Except.error e => Except.error e
  | Except.ok db' =>
    match batches.getLast? with
    | none => Except.error "IndexError: list index out of range"
    | some lastB => remove_dupe_for_batch db' worker lastB true

/-- Tag each blob's rows with its checkpoint order, starting at index `s`:
the list of checkpoint temp table contents. -/
def tagAll : Nat → List (List Row) → List (List MRow)
  | _, [] => []
  | i, c :: cs => tagBlob i c :: tagAll (i + 1) cs

/-- The pure value of the merged table produced by the forward merge loop of
`load_and_merge` on the given blob contents (empty input gives `[]`; the code
raises in that case before producing a table). -/
def codeMergeT (contents : List (List Row)) : List MRow :=
  match tagAll 0 contents with
  | [] => []
  | t :: ts => ts.foldl mergeStep t

/-- Modelled from the spec: one step of the reverse-iteration merge of spec
section 4.4 step 1 — into the merged set `m`, insert only the records of the
older blob `t` whose identifier is not already present in `m`. -/
def specStep (m t : List MRow) : List MRow :=
  m ++ t.filter (fun r => ! m.any (fun c => c.id == r.id))

/-- Modelled from the spec: the merge algorithm of spec section 4.4 step 1 —
process the blobs newest checkpoint first, seed the merged set with the newest
blob's records, and for each older blob insert only records whose identifier is
not already present.  Rows carry the same `checkpoint_order` tag as the code's
tables so the two outputs are comparable. -/
def specMerge (contents : List (List Row)) : List MRow :=
  match (tagAll 0 contents).reverse with
  | [] => []
  | t :: ts => ts.foldl specStep t

/-- `GoldskyQueueItem` (source lines 38-44): a checkpoint ordinal plus the blob
holding that checkpoint's records; `__lt__` compares checkpoints. -/
structure GoldskyQueueItem where
  checkpoint : Int
  blob_name : String
deriving DecidableEq, Repr

/-- Insertion into the heap modelled as a checkpoint-sorted list:
`heapq.heappush` keeps the smallest checkpoint at the front
(`heappop` = take the head). -/
def heappush (l : List GoldskyQueueItem) (x : GoldskyQueueItem) :
    List GoldskyQueueItem :=
  match l with
  | [] => [x]
  | y :: ys => if x.checkpoint < y.checkpoint then x :: y :: ys else y :: heappush ys x

/-- `GoldskyQueue` (source lines 47-67): the heap contents (modelled as a
checkpoint-sorted list), the cumulative dequeue count `_dequeues`, and the hard
consumption cap `max_size`. -/
structure GoldskyQueue where
  queue : List GoldskyQueueItem
  dequeues : Nat
  max_size : Nat
deriving DecidableEq, Repr

/-- A freshly constructed `GoldskyQueue(max_size)`. -/
def freshGoldskyQueue (max_size : Nat) : GoldskyQueue := ⟨[], 0, max_size⟩

/-- `GoldskyQueue.enqueue`: `heapq.heappush(self.queue, item)`. -/
def GoldskyQueue.enqueue (q : GoldskyQueue) (item : GoldskyQueueItem) :
    GoldskyQueue :=
  { q with queue := heappush q.queue item }

/-- `GoldskyQueue.dequeue` (source lines 56-64): return `None` once
`_dequeues > max_size - 1` (Python integer arithmetic, hence the `Int` cast);
otherwise pop the minimum, counting it, and catch the `IndexError` of popping
an empty heap as `None`. -/
def GoldskyQueue.dequeue (q : GoldskyQueue) :
    Option GoldskyQueueItem × GoldskyQueue :=
  if (q.dequeues : Int) > (q.max_size : Int) - 1 then (none, q)
  else
    match q.queue with
    | [] => (none, q)
    | x :: xs => (some x, { q with queue := xs, dequeues := q.dequeues + 1 })

/-- `GoldskyQueue.len`: current pending count. -/
def GoldskyQueue.len (q : GoldskyQueue) : Nat := q.queue.length

/-- `GoldskyQueues` (source lines 70-94): the per-worker registry, an
insertion-ordered mapping from worker name to queue plus the shared
`max_size`. -/
structure GoldskyQueues where
  queues : List (String × GoldskyQueue)
  max_size : Nat
deriving DecidableEq, Repr

/-- A freshly constructed `GoldskyQueues(max_size)`. -/
def freshGoldskyQueues (max_size : Nat) : GoldskyQueues := ⟨[], max_size⟩

/-- Lookup in the insertion-ordered mapping (`self.queues.get(worker)`). -/
def lookupQueue (l : List (String × GoldskyQueue)) (w : String) :
    Option GoldskyQueue :=
  match l with
  | [] => none
  | (w', q) :: rest => if w' = w then some q else lookupQueue rest w

/-- `self.queues[worker] = queue`: replace the worker's entry in place, or
append a new entry (dict insertion order). -/
def storeQueue (l : List (String × GoldskyQueue)) (w : String)
    (q : GoldskyQueue) : List (String × GoldskyQueue) :=
  match l with
  | [] => [(w, q)]
  | (w', q') :: rest =>
    if w' = w then (w, q) :: rest else (w', q') :: storeQueue rest w q

/-- `GoldskyQueues.enqueue` (source lines 75-78): get the worker's queue or a
fresh one, enqueue into it, and store it back under the worker's name. -/
def GoldskyQueues.enqueue (qs : GoldskyQueues) (worker : String)
    (item : GoldskyQueueItem) : GoldskyQueues :=
  let q := (lookupQueue qs.queues worker).getD (freshGoldskyQueue qs.max_size)
  { qs with queues := storeQueue qs.queues worker (q.enqueue item) }

/-- `GoldskyQueues.dequeue` (source lines 80-82): get the worker's queue or a
fresh one and dequeue from it.  The fresh queue is *not* stored back (the
source never assigns into `self.queues` here), so dequeuing a never-seen
worker leaves the registry unchanged; for a known worker the mutation of the
shared queue object is visible in the registry. -/
def GoldskyQueues.dequeue (qs : GoldskyQueues) (worker : String) :
    Option GoldskyQueueItem × GoldskyQueues :=
  match lookupQueue qs.queues worker with
  | some q =>
    let p := q.dequeue
    (p.1, { qs with queues := storeQueue qs.queues worker p.2 })
  | none =>
    let p := (freshGoldskyQueue qs.max_size).dequeue
    (p.1, qs)

/-- `GoldskyQueues.workers`: the known worker names. -/
def GoldskyQueues.workers (qs : GoldskyQueues) : List String :=
  qs.queues.map (fun p => p.1)

/-- `GoldskyQueues.status` (source lines 87-91): the pending length per known
worker, in registry order. -/
def GoldskyQueues.status (qs : GoldskyQueues) : List (String × Nat) :=
  qs.queues.map (fun p => (p.1, p.2.len))

/-- Lookup in the status mapping (`status()[worker]`); `none` models the
`KeyError` of indexing a missing key. -/
def lookupStatus (l : List (String × Nat)) (w : String) : Option Nat :=
  match l with
  | [] => none
  | (w', n) :: rest => if w' = w then some n else lookupStatus rest w

/-- Queue operations for exercising a `GoldskyQueue` instance. -/
inductive QOp where
  | enq (item : GoldskyQueueItem)
  | deq
deriving DecidableEq, Repr

/-- Run a sequence of operations against a queue, collecting the result of
every dequeue call in order. -/
def runOps : GoldskyQueue → List QOp → GoldskyQueue × List (Option GoldskyQueueItem)
  | q, [] => (q, [])
  | q, QOp.enq it :: ops => runOps (q.enqueue it) ops
  | q, QOp.deq :: ops =>
    let p := q.dequeue
    let rest := runOps p.2 ops
    (rest.1, p.1 :: rest.2)

/-- Enqueue a list of items in order. -/
def enqueueAll (q : GoldskyQueue) (items : List GoldskyQueueItem) : GoldskyQueue :=
  items.foldl GoldskyQueue.enqueue q

/-! Basic lemmas about point updates and state setters. -/

theorem upd2_same {α : Type} (f : String → Nat → Option α) (w : String) (b : Nat)
    (v : Option α) : upd2 f w b v w b = v := by
  simp [upd2]

theorem upd2_upd2 {α : Type} (f : String → Nat → Option α) (w : String) (b : Nat)
    (u v : Option α) : upd2 (upd2 f w b u) w b v = upd2 f w b v := by
  funext w' b'
  unfold upd2
  split <;> rfl

theorem upd2_self {α : Type} (f : String → Nat → Option α) (w : String) (b : Nat)
    (v : Option α) (h : f w b = v) : upd2 f w b v = f := by
  funext w' b'
  unfold upd2
  split
  next hc => rw [hc.1, hc.2, h]
  next => rfl

/-! Lemmas about the worker queue. -/

theorem mem_heappush {l : List GoldskyQueueItem} {x y : GoldskyQueueItem} :
    y ∈ heappush l x ↔ y = x ∨ y ∈ l := by
  induction l with
  | nil => simp [heappush]
  | cons z zs ih =>
    simp only [heappush]
    split
    · simp [List.mem_cons]
    · simp [List.mem_cons, ih]
      tauto

theorem heappush_sorted {l : List GoldskyQueueItem}
    (h : l.Sorted (fun a b => a.checkpoint ≤ b.checkpoint)) (x : GoldskyQueueItem) :
    (heappush l x).Sorted (fun a b => a.checkpoint ≤ b.checkpoint) := by
  induction l with
  | nil => simp [heappush, List.sorted_singleton]
  | cons z zs ih =>
    rw [List.sorted_cons] at h
    obtain ⟨hz, hzs⟩ := h
    simp only [heappush]
    split
    next hlt =>
      rw [List.sorted_cons]
      refine ⟨?_, by rw [List.sorted_cons]; exact ⟨hz, hzs⟩⟩
      intro b hb
      rcases List.mem_cons.mp hb with hb | hb
      · rw [hb]
        exact le_of_lt hlt
      · exact le_trans (le_of_lt hlt) (hz b hb)
    next hge =>
      rw [List.sorted_cons]
      refine ⟨?_, ih hzs⟩
      intro b hb
      rcases mem_heappush.mp hb with hb | hb
      · rw [hb]
        exact le_of_not_lt hge
      · exact hz b hb

theorem enqueueAll_sorted :
    ∀ (items : List GoldskyQueueItem) (q : GoldskyQueue),
      q.queue.Sorted (fun a b => a.checkpoint ≤ b.checkpoint) →
      ((enqueueAll q items).queue).Sorted (fun a b => a.checkpoint ≤ b.checkpoint) := by
  intro items
  induction items with
  | nil => intro q h; exact h
  | cons it items ih =>
    intro q h
    simp only [enqueueAll, List.foldl_cons]
    exact ih (q.enqueue it) (heappush_sorted h it)

theorem enqueueAll_counts :
    ∀ (items : List GoldskyQueueItem) (q : GoldskyQueue),
      (enqueueAll q items).dequeues = q.dequeues ∧
      (enqueueAll q items).max_size = q.max_size := by
  intro items
  induction items with
  | nil => intro q; exact ⟨rfl, rfl⟩
  | cons it items ih =>
    intro q
    simp only [enqueueAll, List.foldl_cons]
    exact ih (q.enqueue it)

theorem runOps_replicate_deq (n : Nat) :
    ∀ (q : GoldskyQueue),
      ((runOps q (List.replicate n QOp.deq)).2.filterMap id) =
      q.queue.take (min n (min q.queue.length (q.max_size - q.dequeues))) := by
  induction n with
  | zero => intro q; simp [runOps]
  | succ n ih =>
    intro q
    rw [List.replicate_succ]
    by_cases hc : (q.dequeues : Int) > (q.max_size : Int) - 1
    · have h0 : q.max_size - q.dequeues = 0 := by omega
      simp only [runOps, GoldskyQueue.dequeue, if_pos hc]
      simp [ih q, h0]
    · match hq : q.queue with
      | [] =>
        simp only [runOps, GoldskyQueue.dequeue, if_neg hc, hq]
        simp [ih q, hq]
      | x :: xs =>
        simp only [runOps, GoldskyQueue.dequeue, if_neg hc, hq]
        simp only [List.filterMap_cons, id]
        rw [ih { q with queue := xs, dequeues := q.dequeues + 1 }]
        have hmin : min (n + 1) (min (x :: xs).length (q.max_size - q.dequeues)) =
            (min n (min xs.length (q.max_size - (q.dequeues + 1)))) + 1 := by
          simp only [List.length_cons]
          omega
        rw [hmin, List.take_succ_cons]

theorem runOps_success_count :
    ∀ (ops : List QOp) (q : GoldskyQueue),
      ((runOps q ops).2.filterMap id).length + q.dequeues ≤ max q.max_size q.dequeues := by
  intro ops
  induction ops with
  | nil => intro q; simp [runOps]
  | cons op ops ih =>
    intro q
    match op with
    | QOp.enq it =>
      have h := ih (q.enqueue it)
      simp only [runOps]
      simp only [GoldskyQueue.enqueue] at h ⊢
      exact h
    | QOp.deq =>
      by_cases hc : (q.dequeues : Int) > (q.max_size : Int) - 1
      · simp only [runOps, GoldskyQueue.dequeue, if_pos hc]
        simpa using ih q
      · match hq : q.queue with
        | [] =>
          simp only [runOps, GoldskyQueue.dequeue, if_neg hc, hq]
          simpa using ih q
        | x :: xs =>
          simp only [runOps, GoldskyQueue.dequeue, if_neg hc, hq]
          have h := ih { q with queue := xs, dequeues := q.dequeues + 1 }
          simp only [List.filterMap_cons, id] at h ⊢
          simp only [List.length_cons]
          omega

theorem runOps_capped :
    ∀ (ops : List QOp) (q : GoldskyQueue), q.max_size ≤ q.dequeues →
      ∀ r ∈ (runOps q ops).2, r = none := by
  intro ops
  induction ops with
  | nil => intro q _ r hr; simp [runOps] at hr
  | cons op ops ih =>
    intro q hcap r hr
    match op with
    | QOp.enq it =>
      exact ih (q.enqueue it) hcap r hr
    | QOp.deq =>
      have hc : (q.dequeues : Int) > (q.max_size : Int) - 1 := by omega
      simp only [runOps, GoldskyQueue.dequeue, if_pos hc] at hr
      rcases List.mem_cons.mp hr with hr | hr
      · exact hr
      · exact ih q hcap r hr

/-- Claim C5 (amended): for a `GoldskyQueue` with cap `m`, (1) when all
enqueues precede the dequeues, the successful dequeues come out in
non-decreasing checkpoint order regardless of enqueue order; (2) over any
operation sequence on a fresh queue at most `m` dequeues ever succeed, so the
dequeue after the `m`-th success returns none; (3) once the cumulative dequeue
count reaches `max_size`, every later dequeue returns none even if more items
are enqueued; (4) dequeuing from an empty underlying store returns none rather
than raising an error. -/
theorem claim5_queue_amended :
    (∀ (m : Nat) (items : List GoldskyQueueItem) (n : Nat),
      List.Sorted (fun a b => a.checkpoint ≤ b.checkpoint)
        ((runOps (enqueueAll (freshGoldskyQueue m) items)
          (List.replicate n QOp.deq)).2.filterMap id)) ∧
    (∀ (m : Nat) (ops : List QOp),
      ((runOps (freshGoldskyQueue m) ops).2.filterMap id).length ≤ m) ∧
    (∀ (q : GoldskyQueue) (ops : List QOp), q.max_size ≤ q.dequeues →
      ∀ r ∈ (runOps q ops).2, r = none) ∧
    (∀ q : GoldskyQueue, q.queue = [] → (q.dequeue).1 = none) := by
  refine ⟨?_, ?_, ?_, ?_⟩
  · intro m items n
    have hsorted := enqueueAll_sorted items (freshGoldskyQueue m)
      (by simp [freshGoldskyQueue])
    rw [runOps_replicate_deq]
    exact hsorted.sublist (List.take_sublist _ _)
  · intro m ops
    have h := runOps_success_count ops (freshGoldskyQueue m)
    simpa [freshGoldskyQueue] using h
  · exact fun q ops h => runOps_capped ops q h
  · intro q h
    unfold GoldskyQueue.dequeue
    split
    · rfl
    · rw [h]

/-- Interleaved operation sequence used to refute the ordering part of claim
C5 as stated: enqueue checkpoint 5, dequeue it, enqueue checkpoint 1, dequeue
it. -/
def opsInterleaved : List QOp :=
  [QOp.enq ⟨5, "b5"⟩, QOp.deq, QOp.enq ⟨1, "b1"⟩, QOp.deq]

/-- Claim C5 as stated is false: with cap `m = 10` and dequeues interleaved
between enqueues, the successful dequeues come out as checkpoints `[5, 1]`,
which is not non-decreasing. -/
theorem claim5_counterexample :
    ¬ List.Sorted (fun a b => a.checkpoint ≤ b.checkpoint)
      ((runOps (freshGoldskyQueue 10) opsInterleaved).2.filterMap id) := by
  intro h
  have he : (runOps (freshGoldskyQueue 10) opsInterleaved).2.filterMap id
      = [⟨5, "b5"⟩, ⟨1, "b1"⟩] := by decide
  rw [he, List.sorted_cons] at h
  have h51 := h.1 ⟨1, "b1"⟩ (by simp)
  simp at h51

/-- Witness for claim C5's amended theorem: its capped-forever conjunct applied
to a queue whose dequeue count 5 already exceeds its cap 3, over an operation
sequence that enqueues another item and then dequeues. -/
theorem claim5_witness :
    (⟨[⟨4, "x"⟩], 5, 3⟩ : GoldskyQueue).max_size ≤
      (⟨[⟨4, "x"⟩], 5, 3⟩ : GoldskyQueue).dequeues ∧
    ∀ r ∈ (runOps ⟨[⟨4, "x"⟩], 5, 3⟩ [QOp.enq ⟨9, "y"⟩, QOp.deq]).2, r = none :=
  ⟨by decide,
   claim5_queue_amended.2.2.1 ⟨[⟨4, "x"⟩], 5, 3⟩ [QOp.enq ⟨9, "y"⟩, QOp.deq]
     (by decide)⟩

/-! Lemmas about the queue registry. -/

theorem lookupStatus_map_none :
    ∀ (l : List (String × GoldskyQueue)) (w : String),
      lookupQueue l w = none →
      lookupStatus (l.map (fun p => (p.1, p.2.len))) w = none := by
  intro l
  induction l with
  | nil => intro w _; rfl
  | cons p rest ih =>
    intro w h
    simp only [lookupQueue] at h
    by_cases hw : p.1 = w
    · rw [if_pos hw] at h
      exact absurd h (by simp)
    · rw [if_neg hw] at h
      simp only [List.map_cons, lookupStatus, if_neg hw]
      exact ih w h

/-- Claim C9 (amended): dequeuing a worker that has never been enqueued
constructs a transient fresh queue (with the registry's `max_size`), yields
none rather than raising, and leaves the registry unchanged — the queue is
*not* stored back; consequently `status()` has no entry at all for a
never-seen worker (a depth probe raises `KeyError` rather than returning
zero). -/
theorem claim9_registry_amended (qs : GoldskyQueues) (w : String)
    (h : lookupQueue qs.queues w = none) :
    (qs.dequeue w).1 = none ∧ (qs.dequeue w).2 = qs ∧
    lookupStatus qs.status w = none := by
  refine ⟨?_, ?_, ?_⟩
  · simp only [GoldskyQueues.dequeue, h]
    unfold GoldskyQueue.dequeue freshGoldskyQueue
    split
    · rfl
    · rfl
  · simp only [GoldskyQueues.dequeue, h]
  · exact lookupStatus_map_none qs.queues w h

/-- Claim C9 as stated is false at a fresh registry: dequeuing the never-seen
worker `"w"` yields none (that part holds), but the depth query for `"w"`
does not return zero — `status()` has no entry for `"w"` at all. -/
theorem claim9_counterexample :
    ((freshGoldskyQueues 10).dequeue "w").1 = none ∧
    lookupStatus ((freshGoldskyQueues 10).dequeue "w").2.status "w" ≠ some 0 ∧
    lookupStatus ((freshGoldskyQueues 10).dequeue "w").2.status "w" = none := by
  refine ⟨by decide, by decide, by decide⟩

/-- Witness for claim C9's amended theorem at a concrete fresh registry. -/
theorem claim9_witness :
    ((freshGoldskyQueues 4).dequeue "w").1 = none ∧
    ((freshGoldskyQueues 4).dequeue "w").2 = freshGoldskyQueues 4 ∧
    lookupStatus (freshGoldskyQueues 4).status "w" = none :=
  claim9_registry_amended (freshGoldskyQueues 4) "w" rfl

/-- Claim C10: `remove_dupes` (1) fails with `IndexError` on the empty batch
list, since it unconditionally indexes `batches[-1]`; (2) on any non-empty
list it processes every leading batch id with `last = False` and exactly the
final element with `last = True`; (3) the last batch's deduped view is the
merged table copied unfiltered; (4) a non-last batch's deduped view is the
merged table minus the rows whose id appears in that batch's delete patch. -/
theorem claim10_remove_dupes :
    (∀ (db : DB) (w : String),
      remove_dupes db w [] = Except.error "IndexError: list index out of range") ∧
    (∀ (db : DB) (w : String) (bs : List Nat) (b : Nat),
      remove_dupes db w (bs ++ [b]) =
        match removeDupesAux w bs db with
        | Except.error e => Except.error e
        | Except.ok db' => remove_dupe_for_batch db' w b true) ∧
    (∀ (db : DB) (w : String) (b : Nat) (tbl : List MRow),
      db.durTable w b = some tbl →
      ∃ db', remove_dupe_for_batch db w b true = Except.ok db' ∧
        db'.durDeduped w b = some tbl) ∧
    (∀ (db : DB) (w : String) (b : Nat) (tbl : List MRow) (delIds : List Nat),
      db.durTable w b = some tbl → db.durDelete w b = some delIds →
      ∃ db', remove_dupe_for_batch db w b false = Except.ok db' ∧
        db'.durDeduped w b = some (tbl.filter (fun r => ! delIds.contains r.id))) := by
  refine ⟨?_, ?_, ?_, ?_⟩
  · intro db w
    rfl
  · intro db w bs b
    unfold remove_dupes
    rw [List.dropLast_concat, List.getLast?_concat]
  · intro db w b tbl h
    unfold remove_dupe_for_batch
    rw [h]
    refine ⟨_, rfl, ?_⟩
    simp [putDurDeduped, putDeduped, upd2_same]
  · intro db w b tbl delIds ht hd
    unfold remove_dupe_for_batch
    rw [ht]
    simp only [Bool.false_eq_true, if_false]
    have hd1 : (putDeduped db w b (some tbl)).durDelete w b = some delIds := hd
    rw [hd1]
    refine ⟨_, rfl, ?_⟩
    simp [putDurDeduped, putDeduped, upd2_same]

/-- Witness for claim C10: its last-batch conjunct applied to a state holding
one durable merged table; the deduped artifact equals that table. -/
theorem claim10_witness :
    (putDurTable emptyDB "w" 0 (some [⟨0, 1, 2⟩])).durTable "w" 0
      = some [⟨0, 1, 2⟩] ∧
    ∃ db', remove_dupe_for_batch (putDurTable emptyDB "w" 0 (some [⟨0, 1, 2⟩]))
        "w" 0 true = Except.ok db' ∧
      db'.durDeduped "w" 0 = some [⟨0, 1, 2⟩] :=
  ⟨by decide,
   claim10_remove_dupes.2.2.1 (putDurTable emptyDB "w" 0 (some [⟨0, 1, 2⟩]))
     "w" 0 [⟨0, 1, 2⟩] (by decide)⟩

/-! Characterization of the blob-loading loop. -/

/-- Net state effect of a successful blob-loading loop: the checkpoint temp
tables that get created, starting at index `i0`. -/
def applyTTs (w : String) (b : Nat) : Nat → List (List Row) → DB → DB
  | _, [], db => db
  | i, c :: cs, db => applyTTs w b (i + 1) cs (putCTT db w b i (some (tagBlob i c)))

theorem applyTTs_fields (w : String) (b : Nat) :
    ∀ (cs : List (List Row)) (i0 : Nat) (db : DB),
      (applyTTs w b i0 cs db).merged = db.merged ∧
      (applyTTs w b i0 cs db).mergedIds = db.mergedIds ∧
      (applyTTs w b i0 cs db).deletePatch = db.deletePatch ∧
      (applyTTs w b i0 cs db).deduped = db.deduped ∧
      (applyTTs w b i0 cs db).durTable = db.durTable ∧
      (applyTTs w b i0 cs db).durDelete = db.durDelete ∧
      (applyTTs w b i0 cs db).durDeduped = db.durDeduped := by
  intro cs
  induction cs with
  | nil => intro i0 db; exact ⟨rfl, rfl, rfl, rfl, rfl, rfl, rfl⟩
  | cons c cs ih =>
    intro i0 db
    simp only [applyTTs]
    exact ih (i0 + 1) (putCTT db w b i0 (some (tagBlob i0 c)))

theorem applyTTs_lookup_lt (w : String) (b : Nat) :
    ∀ (cs : List (List Row)) (i0 : Nat) (db : DB) (j : Nat), j < i0 →
      (applyTTs w b i0 cs db).checkpointTT w b j = db.checkpointTT w b j := by
  intro cs
  induction cs with
  | nil => intro i0 db j _; rfl
  | cons c cs ih =>
    intro i0 db j hj
    simp only [applyTTs]
    rw [ih (i0 + 1) _ j (by omega)]
    simp only [putCTT, upd3]
    rw [if_neg (by omega)]

theorem applyTTs_lookup (w : String) (b : Nat) :
    ∀ (cs : List (List Row)) (i0 : Nat) (db : DB) (k : Nat), k < cs.length →
      (applyTTs w b i0 cs db).checkpointTT w b (i0 + k) =
        some (tagBlob (i0 + k) (cs.getD k [])) := by
  intro cs
  induction cs with
  | nil => intro i0 db k hk; simp at hk
  | cons c cs ih =>
    intro i0 db k hk
    match k with
    | 0 =>
      simp only [applyTTs, Nat.add_zero, List.getD_cons_zero]
      rw [applyTTs_lookup_lt w b cs (i0 + 1) _ i0 (by omega)]
      simp [putCTT, upd3]
    | k + 1 =>
      simp only [applyTTs, List.getD_cons_succ]
      have := ih (i0 + 1) (putCTT db w b i0 (some (tagBlob i0 c))) k
        (by simpa using Nat.lt_of_succ_lt_succ hk)
      rw [show i0 + (k + 1) = (i0 + 1) + k by omega]
      exact this

theorem loadBlobs_ok (blobs : String → Option (List Row)) (w : String) (b : Nat) :
    ∀ (names : List String) (contents : List (List Row)) (i0 : Nat) (db : DB)
      (tr : List Ev),
      List.Forall₂ (fun nm c => blobs nm = some c) names contents →
      (∀ k, k < names.length → db.checkpointTT w b (i0 + k) = none) →
      ∃ tr', loadBlobs blobs w b i0 names db tr =
        ⟨none, applyTTs w b i0 contents db, tr'⟩ := by
  intro names
  induction names with
  | nil =>
    intro contents i0 db tr hf _
    cases hf
    exact ⟨tr, rfl⟩
  | cons nm names ih =>
    intro contents i0 db tr hf hslots
    cases hf with
    | cons hbc hrest =>
      rename_i c cs
      simp only [loadBlobs, hbc]
      have h0 : db.checkpointTT w b i0 = none := by
        have := hslots 0 (by simp)
        simpa using this
      rw [h0]
      have hslots' : ∀ k, k < names.length →
          (putCTT db w b i0 (some (tagBlob i0 c))).checkpointTT w b ((i0 + 1) + k) = none := by
        intro k hk
        simp only [putCTT, upd3]
        rw [if_neg (by omega)]
        have := hslots (k + 1) (by simpa using Nat.succ_lt_succ hk)
        rw [show i0 + (k + 1) = (i0 + 1) + k by omega] at this
        exact this
      obtain ⟨tr', h⟩ := ih cs (i0 + 1) (putCTT db w b i0 (some (tagBlob i0 c)))
        (tr ++ [Ev.createCheckpointTT i0]) hrest hslots'
      exact ⟨tr', by rw [h]; rfl⟩

theorem loadBlobs_durables (blobs : String → Option (List Row)) (w : String) (b : Nat) :
    ∀ (names : List String) (i0 : Nat) (db : DB) (tr : List Ev),
      (loadBlobs blobs w b i0 names db tr).db.merged = db.merged ∧
      (loadBlobs blobs w b i0 names db tr).db.mergedIds = db.mergedIds ∧
      (loadBlobs blobs w b i0 names db tr).db.deletePatch = db.deletePatch ∧
      (loadBlobs blobs w b i0 names db tr).db.deduped = db.deduped ∧
      (loadBlobs blobs w b i0 names db tr).db.durTable = db.durTable ∧
      (loadBlobs blobs w b i0 names db tr).db.durDelete = db.durDelete ∧
      (loadBlobs blobs w b i0 names db tr).db.durDeduped = db.durDeduped := by
  intro names
  induction names with
  | nil => intro i0 db tr; exact ⟨rfl, rfl, rfl, rfl, rfl, rfl, rfl⟩
  | cons nm names ih =>
    intro i0 db tr
    simp only [loadBlobs]
    match blobs nm with
    | none => exact ⟨rfl, rfl, rfl, rfl, rfl, rfl, rfl⟩
    | some content =>
      match db.checkpointTT w b i0 with
      | some _ => exact ⟨rfl, rfl, rfl, rfl, rfl, rfl, rfl⟩
      | none => exact ih (i0 + 1) (putCTT db w b i0 (some (tagBlob i0 content))) _

theorem loadBlobs_err_of_missing (blobs : String → Option (List Row)) (w : String)
    (b : Nat) :
    ∀ (names : List String) (i0 : Nat) (db : DB) (tr : List Ev),
      (∃ nm ∈ names, blobs nm = none) →
      (loadBlobs blobs w b i0 names db tr).err.isSome = true := by
  intro names
  induction names with
  | nil => intro i0 db tr h; simp at h
  | cons nm names ih =>
    intro i0 db tr h
    simp only [loadBlobs]
    match hb : blobs nm with
    | none => rfl
    | some content =>
      match db.checkpointTT w b i0 with
      | some _ => rfl
      | none =>
        apply ih
        rcases h with ⟨nm', hmem, hnone⟩
        rcases List.mem_cons.mp hmem with hx | hx
        · rw [hx] at hnone
          rw [hnone] at hb
          exact absurd hb (by simp)
        · exact ⟨nm', hx, hnone⟩

/-! Characterization of the merge loop and the cleanup. -/

theorem putMerged_self (db : DB) (w : String) (b : Nat) (m : List MRow)
    (h : db.merged w b = some m) : putMerged db w b (some m) = db := by
  unfold putMerged
  have : upd2 db.merged w b (some m) = db.merged := upd2_self _ _ _ _ h
  rw [this]

theorem mergeSteps_ok (w : String) (b : Nat) :
    ∀ (idxs : List Nat) (db : DB) (tr : List Ev) (m0 : List MRow)
      (f : Nat → List MRow),
      db.merged w b = some m0 →
      (∀ i ∈ idxs, db.checkpointTT w b i = some (f i)) →
      ∃ tr', mergeSteps w b idxs db tr =
        ⟨none, putMerged db w b (some ((idxs.map f).foldl mergeStep m0)), tr'⟩ := by
  intro idxs
  induction idxs with
  | nil =>
    intro db tr m0 f hm _
    refine ⟨tr, ?_⟩
    simp only [mergeSteps, List.map_nil, List.foldl_nil]
    rw [putMerged_self db w b m0 hm]
  | cons i idxs ih =>
    intro db tr m0 f hm hf
    simp only [mergeSteps, hm, hf i (by simp)]
    have hm' : (putMerged db w b (some (mergeStep m0 (f i)))).merged w b
        = some (mergeStep m0 (f i)) := by
      simp [putMerged, upd2_same]
    have hf' : ∀ j ∈ idxs,
        (putMerged db w b (some (mergeStep m0 (f i)))).checkpointTT w b j
          = some (f j) := by
      intro j hj
      exact hf j (by simp [hj])
    obtain ⟨tr', h⟩ := ih (putMerged db w b (some (mergeStep m0 (f i)))) _
      (mergeStep m0 (f i)) f hm' hf'
    refine ⟨tr', ?_⟩
    rw [h]
    simp only [List.map_cons, List.foldl_cons]
    have : putMerged (putMerged db w b (some (mergeStep m0 (f i)))) w b
        (some ((idxs.map f).foldl mergeStep (mergeStep m0 (f i)))) =
        putMerged db w b
        (some ((idxs.map f).foldl mergeStep (mergeStep m0 (f i)))) := by
      unfold putMerged
      ext1 <;> simp [upd2_upd2]
    rw [this]

theorem dropTTs_fields (w : String) (b : Nat) :
    ∀ (idxs : List Nat) (db : DB) (tr : List Ev),
      (dropTTs w b idxs db tr).1.merged = db.merged ∧
      (dropTTs w b idxs db tr).1.mergedIds = db.mergedIds ∧
      (dropTTs w b idxs db tr).1.deletePatch = db.deletePatch ∧
      (dropTTs w b idxs db tr).1.deduped = db.deduped ∧
      (dropTTs w b idxs db tr).1.durTable = db.durTable ∧
      (dropTTs w b idxs db tr).1.durDelete = db.durDelete ∧
      (dropTTs w b idxs db tr).1.durDeduped = db.durDeduped := by
  intro idxs
  induction idxs with
  | nil => intro db tr; exact ⟨rfl, rfl, rfl, rfl, rfl, rfl, rfl⟩
  | cons i idxs ih =>
    intro db tr
    simp only [dropTTs]
    match db.checkpointTT w b i with
    | none => exact ih db tr
    | some _ => exact ih (putCTT db w b i none) _

theorem finishRun_ok (db : DB) (w : String) (b : Nat) (size : Nat) (tr : List Ev)
    (m : List MRow) (hm : db.merged w b = some m) :
    (finishRun db w b size tr).err = none ∧
    (finishRun db w b size tr).db.mergedIds = db.mergedIds ∧
    (finishRun db w b size tr).db.deletePatch = db.deletePatch ∧
    (finishRun db w b size tr).db.deduped = db.deduped ∧
    (finishRun db w b size tr).db.durTable = db.durTable ∧
    (finishRun db w b size tr).db.durDelete = db.durDelete ∧
    (finishRun db w b size tr).db.durDeduped = db.durDeduped := by
  unfold finishRun
  rw [hm]
  have h := dropTTs_fields w b (idxList 0 size) (putMerged db w b none)
    (tr ++ [Ev.dropMergedTable])
  exact ⟨rfl, h.2.1, h.2.2.1, h.2.2.2.1, h.2.2.2.2.1, h.2.2.2.2.2.1,
    h.2.2.2.2.2.2⟩

/-! Projection lemmas for the state setters. -/

@[simp] theorem putCTT_checkpointTT : ∀ db w b i v, (putCTT db w b i v).checkpointTT = upd3 db.checkpointTT w b i v := by
  intro db w b i v; rfl

@[simp] theorem putCTT_merged : ∀ db w b i v, (putCTT db w b i v).merged = db.merged := by
  intro db w b i v; rfl

@[simp] theorem putCTT_mergedIds : ∀ db w b i v, (putCTT db w b i v).mergedIds = db.mergedIds := by
  intro db w b i v; rfl

@[simp] theorem putCTT_deletePatch : ∀ db w b i v, (putCTT db w b i v).deletePatch = db.deletePatch := by
  intro db w b i v; rfl

@[simp] theorem putCTT_deduped : ∀ db w b i v, (putCTT db w b i v).deduped = db.deduped := by
  intro db w b i v; rfl

@[simp] theorem putCTT_durTable : ∀ db w b i v, (putCTT db w b i v).durTable = db.durTable := by
  intro db w b i v; rfl

@[simp] theorem putCTT_durDelete : ∀ db w b i v, (putCTT db w b i v).durDelete = db.durDelete := by
  intro db w b i v; rfl

@[simp] theorem putCTT_durDeduped : ∀ db w b i v, (putCTT db w b i v).durDeduped = db.durDeduped := by
  intro db w b i v; rfl

@[simp] theorem putMerged_merged : ∀ db w b v, (putMerged db w b v).merged = upd2 db.merged w b v := by
  intro db w b v; rfl

@[simp] theorem putMerged_checkpointTT : ∀ db w b v, (putMerged db w b v).checkpointTT = db.checkpointTT := by
  intro db w b v; rfl

@[simp] theorem putMerged_mergedIds : ∀ db w b v, (putMerged db w b v).mergedIds = db.mergedIds := by
  intro db w b v; rfl

@[simp] theorem putMerged_deletePatch : ∀ db w b v, (putMerged db w b v).deletePatch = db.deletePatch := by
  intro db w b v; rfl

@[simp] theorem putMerged_deduped : ∀ db w b v, (putMerged db w b v).deduped = db.deduped := by
  intro db w b v; rfl

@[simp] theorem putMerged_durTable : ∀ db w b v, (putMerged db w b v).durTable = db.durTable := by
  intro db w b v; rfl

@[simp] theorem putMerged_durDelete : ∀ db w b v, (putMerged db w b v).durDelete = db.durDelete := by
  intro db w b v; rfl

@[simp] theorem putMerged_durDeduped : ∀ db w b v, (putMerged db w b v).durDeduped = db.durDeduped := by
  intro db w b v; rfl

@[simp] theorem putMergedIds_mergedIds : ∀ db w b v, (putMergedIds db w b v).mergedIds = upd2 db.mergedIds w b v := by
  intro db w b v; rfl

@[simp] theorem putMergedIds_checkpointTT : ∀ db w b v, (putMergedIds db w b v).checkpointTT = db.checkpointTT := by
  intro db w b v; rfl

@[simp] theorem putMergedIds_merged : ∀ db w b v, (putMergedIds db w b v).merged = db.merged := by
  intro db w b v; rfl

@[simp] theorem putMergedIds_deletePatch : ∀ db w b v, (putMergedIds db w b v).deletePatch = db.deletePatch := by
  intro db w b v; rfl

@[simp] theorem putMergedIds_deduped : ∀ db w b v, (putMergedIds db w b v).deduped = db.deduped := by
  intro db w b v; rfl

@[simp] theorem putMergedIds_durTable : ∀ db w b v, (putMergedIds db w b v).durTable = db.durTable := by
  intro db w b v; rfl

@[simp] theorem putMergedIds_durDelete : ∀ db w b v, (putMergedIds db w b v).durDelete = db.durDelete := by
  intro db w b v; rfl

@[simp] theorem putMergedIds_durDeduped : ∀ db w b v, (putMergedIds db w b v).durDeduped = db.durDeduped := by
  intro db w b v; rfl

@[simp] theorem putDeletePatch_deletePatch : ∀ db w b v, (putDeletePatch db w b v).deletePatch = upd2 db.deletePatch w b v := by
  intro db w b v; rfl

@[simp] theorem putDeletePatch_checkpointTT : ∀ db w b v, (putDeletePatch db w b v).checkpointTT = db.checkpointTT := by
  intro db w b v; rfl

@[simp] theorem putDeletePatch_merged : ∀ db w b v, (putDeletePatch db w b v).merged = db.merged := by
  intro db w b v; rfl

@[simp] theorem putDeletePatch_mergedIds : ∀ db w b v, (putDeletePatch db w b v).mergedIds = db.mergedIds := by
  intro db w b v; rfl

@[simp] theorem putDeletePatch_deduped : ∀ db w b v, (putDeletePatch db w b v).deduped = db.deduped := by
  intro db w b v; rfl

@[simp] theorem putDeletePatch_durTable : ∀ db w b v, (putDeletePatch db w b v).durTable = db.durTable := by
  intro db w b v; rfl

@[simp] theorem putDeletePatch_durDelete : ∀ db w b v, (putDeletePatch db w b v).durDelete = db.durDelete := by
  intro db w b v; rfl

@[simp] theorem putDeletePatch_durDeduped : ∀ db w b v, (putDeletePatch db w b v).durDeduped = db.durDeduped := by
  intro db w b v; rfl

@[simp] theorem putDeduped_deduped : ∀ db w b v, (putDeduped db w b v).deduped = upd2 db.deduped w b v := by
  intro db w b v; rfl

@[simp] theorem putDeduped_checkpointTT : ∀ db w b v, (putDeduped db w b v).checkpointTT = db.checkpointTT := by
  intro db w b v; rfl

@[simp] theorem putDeduped_merged : ∀ db w b v, (putDeduped db w b v).merged = db.merged := by
  intro db w b v; rfl

@[simp] theorem putDeduped_mergedIds : ∀ db w b v, (putDeduped db w b v).mergedIds = db.mergedIds := by
  intro db w b v; rfl

@[simp] theorem putDeduped_deletePatch : ∀ db w b v, (putDeduped db w b v).deletePatch = db.deletePatch := by
  intro db w b v; rfl

@[simp] theorem putDeduped_durTable : ∀ db w b v, (putDeduped db w b v).durTable = db.durTable := by
  intro db w b v; rfl

@[simp] theorem putDeduped_durDelete : ∀ db w b v, (putDeduped db w b v).durDelete = db.durDelete := by
  intro db w b v; rfl

@[simp] theorem putDeduped_durDeduped : ∀ db w b v, (putDeduped db w b v).durDeduped = db.durDeduped := by
  intro db w b v; rfl

@[simp] theorem putDurTable_durTable : ∀ db w b v, (putDurTable db w b v).durTable = upd2 db.durTable w b v := by
  intro db w b v; rfl

@[simp] theorem putDurTable_checkpointTT : ∀ db w b v, (putDurTable db w b v).checkpointTT = db.checkpointTT := by
  intro db w b v; rfl

@[simp] theorem putDurTable_merged : ∀ db w b v, (putDurTable db w b v).merged = db.merged := by
  intro db w b v; rfl

@[simp] theorem putDurTable_mergedIds : ∀ db w b v, (putDurTable db w b v).mergedIds = db.mergedIds := by
  intro db w b v; rfl

@[simp] theorem putDurTable_deletePatch : ∀ db w b v, (putDurTable db w b v).deletePatch = db.deletePatch := by
  intro db w b v; rfl

@[simp] theorem putDurTable_deduped : ∀ db w b v, (putDurTable db w b v).deduped = db.deduped := by
  intro db w b v; rfl

@[simp] theorem putDurTable_durDelete : ∀ db w b v, (putDurTable db w b v).durDelete = db.durDelete := by
  intro db w b v; rfl

@[simp] theorem putDurTable_durDeduped : ∀ db w b v, (putDurTable db w b v).durDeduped = db.durDeduped := by
  intro db w b v; rfl

@[simp] theorem putDurDelete_durDelete : ∀ db w b v, (putDurDelete db w b v).durDelete = upd2 db.durDelete w b v := by
  intro db w b v; rfl

@[simp] theorem putDurDelete_checkpointTT : ∀ db w b v, (putDurDelete db w b v).checkpointTT = db.checkpointTT := by
  intro db w b v; rfl

@[simp] theorem putDurDelete_merged : ∀ db w b v, (putDurDelete db w b v).merged = db.merged := by
  intro db w b v; rfl

@[simp] theorem putDurDelete_mergedIds : ∀ db w b v, (putDurDelete db w b v).mergedIds = db.mergedIds := by
  intro db w b v; rfl

@[simp] theorem putDurDelete_deletePatch : ∀ db w b v, (putDurDelete db w b v).deletePatch = db.deletePatch := by
  intro db w b v; rfl

@[simp] theorem putDurDelete_deduped : ∀ db w b v, (putDurDelete db w b v).deduped = db.deduped := by
  intro db w b v; rfl

@[simp] theorem putDurDelete_durTable : ∀ db w b v, (putDurDelete db w b v).durTable = db.durTable := by
  intro db w b v; rfl

@[simp] theorem putDurDelete_durDeduped : ∀ db w b v, (putDurDelete db w b v).durDeduped = db.durDeduped := by
  intro db w b v; rfl

@[simp] theorem putDurDeduped_durDeduped : ∀ db w b v, (putDurDeduped db w b v).durDeduped = upd2 db.durDeduped w b v := by
  intro db w b v; rfl

@[simp] theorem putDurDeduped_checkpointTT : ∀ db w b v, (putDurDeduped db w b v).checkpointTT = db.checkpointTT := by
  intro db w b v; rfl

@[simp] theorem putDurDeduped_merged : ∀ db w b v, (putDurDeduped db w b v).merged = db.merged := by
  intro db w b v; rfl

@[simp] theorem putDurDeduped_mergedIds : ∀ db w b v, (putDurDeduped db w b v).mergedIds = db.mergedIds := by
  intro db w b v; rfl

@[simp] theorem putDurDeduped_deletePatch : ∀ db w b v, (putDurDeduped db w b v).deletePatch = db.deletePatch := by
  intro db w b v; rfl

@[simp] theorem putDurDeduped_deduped : ∀ db w b v, (putDurDeduped db w b v).deduped = db.deduped := by
  intro db w b v; rfl

@[simp] theorem putDurDeduped_durTable : ∀ db w b v, (putDurDeduped db w b v).durTable = db.durTable := by
  intro db w b v; rfl

@[simp] theorem putDurDeduped_durDelete : ∀ db w b v, (putDurDeduped db w b v).durDelete = db.durDelete := by
  intro db w b v; rfl

/-! Index-list and tagging lemmas. -/

theorem idxList_mem : ∀ (n s i : Nat), i ∈ idxList s n ↔ s ≤ i ∧ i < s + n := by
  intro n
  induction n with
  | zero => intro s i; simp [idxList]
  | succ n ih =>
    intro s i
    simp only [idxList, List.mem_cons, ih (s + 1) i]
    omega

theorem tagAll_length : ∀ (cs : List (List Row)) (s : Nat),
    (tagAll s cs).length = cs.length := by
  intro cs
  induction cs with
  | nil => intro s; rfl
  | cons c cs ih => intro s; simp [tagAll, ih]

theorem idxList_map_tagAll :
    ∀ (cs : List (List Row)) (s : Nat) (g : Nat → List Row),
      (∀ k, k < cs.length → g (s + k) = cs.getD k []) →
      (idxList s cs.length).map (fun i => tagBlob i (g i)) = tagAll s cs := by
  intro cs
  induction cs with
  | nil => intro s g _; rfl
  | cons c cs ih =>
    intro s g hg
    simp only [List.length_cons, idxList, List.map_cons, tagAll]
    have h0 : g s = c := by simpa using hg 0 (by simp)
    rw [h0]
    congr 1
    apply ih (s + 1) g
    intro k hk
    have := hg (k + 1) (by simp only [List.length_cons]; omega)
    rw [show s + (k + 1) = (s + 1) + k by omega] at this
    simpa using this

/-- State of the connection after the merge loop, the durable table copy and
the id snapshot of `load_and_merge`, starting from working state `dbA`. -/
def postMergeDB (dbA : DB) (worker : String) (batch_id : Nat) (M : List MRow) : DB :=
  putMergedIds
    (putDurTable (putMerged dbA worker batch_id (some M)) worker batch_id (some M))
    worker batch_id (some (M.map (fun r => r.id)))

theorem codeMergeT_eq_fold (contents : List (List Row)) (h : contents ≠ []) :
    ((idxList 1 (contents.length - 1)).map
      (fun i => tagBlob i (contents.getD i []))).foldl mergeStep
      (tagBlob 0 (contents.getD 0 []))
    = codeMergeT contents := by
  match contents with
  | [] => exact absurd rfl h
  | c0 :: cs =>
    simp only [List.length_cons, Nat.add_sub_cancel, List.getD_cons_zero]
    rw [idxList_map_tagAll cs 1 (fun i => (c0 :: cs).getD i [])]
    · rfl
    · intro k hk
      rw [Nat.add_comm]
      exact List.getD_cons_succ

theorem load_pre (blobs : String → Option (List Row)) (db : DB) (worker : String)
    (batch_id : Nat) (names : List String) (contents : List (List Row))
    (hload : List.Forall₂ (fun nm c => blobs nm = some c) names contents)
    (hne : names ≠ [])
    (hTT : ∀ i, db.checkpointTT worker batch_id i = none) :
    ∃ dbA tr5,
      dbA.merged = db.merged ∧ dbA.mergedIds = db.mergedIds ∧
      dbA.deletePatch = db.deletePatch ∧ dbA.deduped = db.deduped ∧
      dbA.durTable = db.durTable ∧ dbA.durDelete = db.durDelete ∧
      dbA.durDeduped = db.durDeduped ∧
      load_and_merge blobs db worker batch_id names =
        (match (reconcile (postMergeDB dbA worker batch_id (codeMergeT contents))
            worker batch_id (codeMergeT contents) tr5).err with
         | some _ => reconcile (postMergeDB dbA worker batch_id (codeMergeT contents))
             worker batch_id (codeMergeT contents) tr5
         | none => finishRun
             (reconcile (postMergeDB dbA worker batch_id (codeMergeT contents))
               worker batch_id (codeMergeT contents) tr5).db
             worker batch_id names.length
             (reconcile (postMergeDB dbA worker batch_id (codeMergeT contents))
               worker batch_id (codeMergeT contents) tr5).trace) := by
  have hlen := hload.length_eq
  obtain ⟨tr1, h1⟩ := loadBlobs_ok blobs worker batch_id names contents 0 db []
    hload (fun k _ => hTT (0 + k))
  have hA := applyTTs_fields worker batch_id contents 0 db
  have hcne : contents ≠ [] := by
    intro hc
    rw [hc] at hlen
    simp only [List.length_nil] at hlen
    exact hne (List.length_eq_zero.mp hlen)
  have hcpos : 0 < contents.length := by
    cases contents with
    | nil => exact absurd rfl hcne
    | cons c0 cs => simp
  have hl0 : (applyTTs worker batch_id 0 contents db).checkpointTT worker batch_id 0
      = some (tagBlob 0 (contents.getD 0 [])) := by
    have := applyTTs_lookup worker batch_id contents 0 db 0 hcpos
    simpa using this
  have hm2 : (putMerged (applyTTs worker batch_id 0 contents db) worker batch_id
      (some (tagBlob 0 (contents.getD 0 [])))).merged worker batch_id
      = some (tagBlob 0 (contents.getD 0 [])) := by
    simp [upd2_same]
  have hf : ∀ i ∈ idxList 1 (names.length - 1),
      (putMerged (applyTTs worker batch_id 0 contents db) worker batch_id
        (some (tagBlob 0 (contents.getD 0 [])))).checkpointTT worker batch_id i
        = some (tagBlob i (contents.getD i [])) := by
    intro i hi
    obtain ⟨h1le, h2lt⟩ := (idxList_mem _ _ _).mp hi
    have hilt : i < contents.length := by omega
    have := applyTTs_lookup worker batch_id contents 0 db i hilt
    simpa using this
  obtain ⟨tr3, h3⟩ := mergeSteps_ok worker batch_id (idxList 1 (names.length - 1))
    (putMerged (applyTTs worker batch_id 0 contents db) worker batch_id
      (some (tagBlob 0 (contents.getD 0 []))))
    (tr1 ++ [Ev.createMergedTable]) (tagBlob 0 (contents.getD 0 []))
    (fun i => tagBlob i (contents.getD i [])) hm2 hf
  have hMfold : ((idxList 1 (names.length - 1)).map
      (fun i => tagBlob i (contents.getD i []))).foldl mergeStep
      (tagBlob 0 (contents.getD 0 []))
      = codeMergeT contents := by
    rw [show names.length - 1 = contents.length - 1 by omega]
    exact codeMergeT_eq_fold contents hcne
  have hcollapse : putMerged (putMerged (applyTTs worker batch_id 0 contents db)
      worker batch_id (some (tagBlob 0 (contents.getD 0 [])))) worker batch_id
      (some (codeMergeT contents))
      = putMerged (applyTTs worker batch_id 0 contents db) worker batch_id
        (some (codeMergeT contents)) := by
    unfold putMerged
    ext1 <;> simp [upd2_upd2]
  have hm3 : (putMerged (applyTTs worker batch_id 0 contents db) worker batch_id
      (some (codeMergeT contents))).merged worker batch_id
      = some (codeMergeT contents) := by
    simp [upd2_same]
  refine ⟨applyTTs worker batch_id 0 contents db,
    tr3 ++ [Ev.copyTable batch_id, Ev.createMergedIds batch_id],
    hA.1, hA.2.1, hA.2.2.1, hA.2.2.2.1, hA.2.2.2.2.1, hA.2.2.2.2.2.1,
    hA.2.2.2.2.2.2, ?_⟩
  simp only [load_and_merge]
  rw [h1]
  simp only []
  rw [hl0]
  simp only []
  rw [h3]
  simp only []
  rw [hMfold, hcollapse, hm3]
  simp only [postMergeDB]

theorem reconcile_zero (db : DB) (worker : String) (m : List MRow) (tr : List Ev) :
    reconcile db worker 0 m tr = ⟨none, db, tr⟩ := by
  simp [reconcile]

theorem reconcile_missing (db : DB) (worker : String) (batch_id : Nat)
    (m : List MRow) (tr : List Ev) (hb : 0 < batch_id)
    (hsnap : db.mergedIds worker (batch_id - 1) = none) :
    reconcile db worker batch_id m tr =
      ⟨some "catalog error: table merged_ids does not exist", db, tr⟩ := by
  unfold reconcile
  rw [if_pos hb]
  dsimp only
  rw [hsnap]

theorem reconcile_pos (db : DB) (worker : String) (batch_id : Nat)
    (m : List MRow) (tr : List Ev) (prevIds : List Nat) (hb : 0 < batch_id)
    (hsnap : db.mergedIds worker (batch_id - 1) = some prevIds) :
    reconcile db worker batch_id m tr =
      ⟨none,
       putDeletePatch
         (putDurDelete
           (putMergedIds
             (putDeletePatch db worker (batch_id - 1)
               (some (patchOf prevIds m)))
             worker (batch_id - 1) none)
           worker (batch_id - 1) (some (patchOf prevIds m)))
         worker (batch_id - 1) none,
       tr ++ [Ev.createDeletePatch (batch_id - 1), Ev.dropMergedIds (batch_id - 1),
              Ev.copyDeletePatch (batch_id - 1),
              Ev.dropDeletePatchTable (batch_id - 1)]⟩ := by
  unfold reconcile
  rw [if_pos hb]
  dsimp only
  rw [hsnap]
  have hdp : (putMergedIds (putDeletePatch db worker (batch_id - 1)
      (some (patchOf prevIds m))) worker (batch_id - 1) none).deletePatch
      worker (batch_id - 1) = some (patchOf prevIds m) := by
    simp [upd2_same]
  dsimp only
  rw [hdp]

theorem load_and_merge_ok (blobs : String → Option (List Row)) (db : DB)
    (worker : String) (batch_id : Nat) (names : List String)
    (contents : List (List Row))
    (hload : List.Forall₂ (fun nm c => blobs nm = some c) names contents)
    (hne : names ≠ [])
    (hTT : ∀ i, db.checkpointTT worker batch_id i = none)
    (hprev : batch_id = 0 ∨
      ∃ prevIds, db.mergedIds worker (batch_id - 1) = some prevIds) :
    (load_and_merge blobs db worker batch_id names).err = none ∧
    (load_and_merge blobs db worker batch_id names).db.durTable worker batch_id
      = some (codeMergeT contents) ∧
    (load_and_merge blobs db worker batch_id names).db.mergedIds worker batch_id
      = some ((codeMergeT contents).map (fun r => r.id)) ∧
    (∀ prevIds, 0 < batch_id → db.mergedIds worker (batch_id - 1) = some prevIds →
      (load_and_merge blobs db worker batch_id names).db.durDelete worker (batch_id - 1)
        = some (patchOf prevIds (codeMergeT contents)) ∧
      (load_and_merge blobs db worker batch_id names).db.mergedIds worker (batch_id - 1)
        = none) ∧
    (batch_id = 0 →
      (load_and_merge blobs db worker batch_id names).db.durDelete = db.durDelete) ∧
    (load_and_merge blobs db worker batch_id names).db.durDeduped = db.durDeduped := by
  obtain ⟨dbA, tr5, hAm, hAmi, hAdp, hAd, hAt, hAdel, hAdd, heq⟩ :=
    load_pre blobs db worker batch_id names contents hload hne hTT
  rcases Nat.eq_zero_or_pos batch_id with hb0 | hbpos
  · subst hb0
    rw [heq, reconcile_zero]
    dsimp only
    have hm5 : (postMergeDB dbA worker 0 (codeMergeT contents)).merged worker 0
        = some (codeMergeT contents) := by
      simp [postMergeDB, upd2_same]
    obtain ⟨hfe, hfmi, hfdp, hfd, hft, hfdel, hfdd⟩ :=
      finishRun_ok (postMergeDB dbA worker 0 (codeMergeT contents)) worker 0
        names.length tr5 (codeMergeT contents) hm5
    refine ⟨hfe, ?_, ?_, ?_, ?_, ?_⟩
    · rw [hft]
      simp [postMergeDB, upd2_same]
    · rw [hfmi]
      simp [postMergeDB, upd2_same]
    · intro prevIds hb _
      exact absurd hb (by omega)
    · intro _
      rw [hfdel]
      simp only [postMergeDB, putMergedIds_durDelete, putDurTable_durDelete,
        putMerged_durDelete]
      exact hAdel
    · rw [hfdd]
      simp only [postMergeDB, putMergedIds_durDeduped, putDurTable_durDeduped,
        putMerged_durDeduped]
      exact hAdd
  · rcases hprev with hb0 | ⟨prevIds, hsnap⟩
    · exact absurd hb0 (by omega)
    have hbne : batch_id - 1 ≠ batch_id := by omega
    have hsnap5 : (postMergeDB dbA worker batch_id (codeMergeT contents)).mergedIds
        worker (batch_id - 1) = some prevIds := by
      simp only [postMergeDB, putMergedIds_mergedIds, putDurTable_mergedIds,
        putMerged_mergedIds]
      rw [upd2]
      simp only [hbne, and_false, if_false]
      rw [hAmi]
      exact hsnap
    rw [heq, reconcile_pos _ _ _ _ _ prevIds hbpos hsnap5]
    dsimp only
    have hm9 : (putDeletePatch
        (putDurDelete
          (putMergedIds
            (putDeletePatch (postMergeDB dbA worker batch_id (codeMergeT contents))
              worker (batch_id - 1)
              (some (patchOf prevIds (codeMergeT contents))))
            worker (batch_id - 1) none)
          worker (batch_id - 1) (some (patchOf prevIds (codeMergeT contents))))
        worker (batch_id - 1) none).merged worker batch_id
        = some (codeMergeT contents) := by
      simp [postMergeDB, upd2_same]
    obtain ⟨hfe, hfmi, hfdp, hfd, hft, hfdel, hfdd⟩ :=
      finishRun_ok _ worker batch_id names.length _ (codeMergeT contents) hm9
    refine ⟨hfe, ?_, ?_, ?_, ?_, ?_⟩
    · rw [hft]
      simp [postMergeDB, upd2_same]
    · rw [hfmi]
      simp only [putDeletePatch_mergedIds, putDurDelete_mergedIds,
        putMergedIds_mergedIds, postMergeDB, putDurTable_mergedIds,
        putMerged_mergedIds]
      rw [upd2]
      simp only [hbne.symm, and_false, if_false]
      rw [upd2_same]
    · intro prevIds' hb' hsnap'
      have hpe : prevIds' = prevIds := by
        rw [hsnap] at hsnap'
        exact Option.some_injective _ hsnap'.symm
      subst hpe
      constructor
      · rw [hfdel]
        simp [upd2_same]
      · rw [hfmi]
        simp only [putDeletePatch_mergedIds, putDurDelete_mergedIds,
          putMergedIds_mergedIds]
        rw [upd2_same]
    · intro h0
      exact absurd h0 (by omega)
    · rw [hfdd]
      simp only [putDeletePatch_durDeduped, putDurDelete_durDeduped,
        putMergedIds_durDeduped, postMergeDB, putDurTable_durDeduped,
        putMerged_durDeduped]
      exact hAdd

theorem load_and_merge_snapshot_missing (blobs : String → Option (List Row))
    (db : DB) (worker : String) (batch_id : Nat) (names : List String)
    (contents : List (List Row))
    (hload : List.Forall₂ (fun nm c => blobs nm = some c) names contents)
    (hne : names ≠ [])
    (hTT : ∀ i, db.checkpointTT worker batch_id i = none)
    (hb : 0 < batch_id)
    (hsnap : db.mergedIds worker (batch_id - 1) = none) :
    (load_and_merge blobs db worker batch_id names).err
      = some "catalog error: table merged_ids does not exist" ∧
    (load_and_merge blobs db worker batch_id names).db.durTable worker batch_id
      = some (codeMergeT contents) ∧
    (load_and_merge blobs db worker batch_id names).db.mergedIds worker batch_id
      = some ((codeMergeT contents).map (fun r => r.id)) ∧
    (load_and_merge blobs db worker batch_id names).db.merged worker batch_id
      = some (codeMergeT contents) := by
  obtain ⟨dbA, tr5, hAm, hAmi, hAdp, hAd, hAt, hAdel, hAdd, heq⟩ :=
    load_pre blobs db worker batch_id names contents hload hne hTT
  have hbne : batch_id - 1 ≠ batch_id := by omega
  have hsnap5 : (postMergeDB dbA worker batch_id (codeMergeT contents)).mergedIds
      worker (batch_id - 1) = none := by
    simp only [postMergeDB, putMergedIds_mergedIds, putDurTable_mergedIds,
      putMerged_mergedIds]
    rw [upd2]
    simp only [hbne, and_false, if_false]
    rw [hAmi]
    exact hsnap
  rw [heq, reconcile_missing _ _ _ _ _ hb hsnap5]
  refine ⟨rfl, ?_, ?_, ?_⟩
  · simp [postMergeDB, upd2_same]
  · simp [postMergeDB, upd2_same]
  · simp [postMergeDB, upd2_same]

/-- Claim C7: if any blob named in `blob_names` is missing, `load_and_merge`
raises before any durable write: the run fails and the durable merged-table,
delete-patch and deduped artifacts (every path, every batch) are exactly as
before the call, so the batch publishes nothing and can be retried from the
same `blob_names`. -/
theorem claim7_atomic_failure (blobs : String → Option (List Row)) (db : DB)
    (worker : String) (batch_id : Nat) (names : List String)
    (hmiss : ∃ nm ∈ names, blobs nm = none) :
    (load_and_merge blobs db worker batch_id names).err.isSome = true ∧
    (load_and_merge blobs db worker batch_id names).db.durTable = db.durTable ∧
    (load_and_merge blobs db worker batch_id names).db.durDelete = db.durDelete ∧
    (load_and_merge blobs db worker batch_id names).db.durDeduped = db.durDeduped := by
  have herr := loadBlobs_err_of_missing blobs worker batch_id names 0 db [] hmiss
  obtain ⟨e, he⟩ := Option.isSome_iff_exists.mp herr
  have hdur := loadBlobs_durables blobs worker batch_id names 0 db []
  simp only [load_and_merge]
  rw [he]
  exact ⟨rfl, hdur.2.2.2.2.1, hdur.2.2.2.2.2.1, hdur.2.2.2.2.2.2⟩

/-- Example blob store: `"a"` holds one record with id 7 (older version),
`"b"` holds a newer version of id 7 plus id 3, other names are missing. -/
def blobsEx : String → Option (List Row) := fun nm =>
  if nm = "a" then some [⟨7, 10⟩]
  else if nm = "b" then some [⟨7, 20⟩, ⟨3, 5⟩]
  else none

/-- Witness for claim C7: running against `blobsEx` with a missing blob name
fails and leaves every durable artifact of the empty store unwritten. -/
theorem claim7_witness :
    (∃ nm ∈ ["a", "missing"], blobsEx nm = none) ∧
    ((load_and_merge blobsEx emptyDB "w" 0 ["a", "missing"]).err.isSome = true ∧
     (load_and_merge blobsEx emptyDB "w" 0 ["a", "missing"]).db.durTable
       = emptyDB.durTable ∧
     (load_and_merge blobsEx emptyDB "w" 0 ["a", "missing"]).db.durDelete
       = emptyDB.durDelete ∧
     (load_and_merge blobsEx emptyDB "w" 0 ["a", "missing"]).db.durDeduped
       = emptyDB.durDeduped) :=
  ⟨by decide, claim7_atomic_failure blobsEx emptyDB "w" 0 ["a", "missing"]
    (by decide)⟩

/-- A connection whose previous-batch id snapshot `merged_ids_w_0` holds ids
7 and 9 (working state left by the batch-0 run). -/
def dbSnap : DB := putMergedIds emptyDB "w" 0 (some [7, 9])

/-- Claim C6 evaluated at a failing input (code bug): in the batch-1 run that
reconciles against the batch-0 snapshot, the statement trace shows the
previous snapshot table being dropped (`DROP TABLE merged_ids_w_0`) strictly
before the delete patch is copied to its durable path — snapshot discard
precedes tombstone persistence, the reverse of the claimed order. -/
theorem claim6_trace_at_failing_input :
    (load_and_merge blobsEx dbSnap "w" 1 ["a"]).err = none ∧
    (load_and_merge blobsEx dbSnap "w" 1 ["a"]).trace =
      [Ev.createCheckpointTT 0, Ev.createMergedTable, Ev.copyTable 1,
       Ev.createMergedIds 1, Ev.createDeletePatch 0, Ev.dropMergedIds 0,
       Ev.copyDeletePatch 0, Ev.dropDeletePatchTable 0, Ev.dropMergedTable,
       Ev.dropCheckpointTT 0] ∧
    (load_and_merge blobsEx dbSnap "w" 1 ["a"]).trace.indexOf (Ev.dropMergedIds 0)
      < (load_and_merge blobsEx dbSnap "w" 1 ["a"]).trace.indexOf
        (Ev.copyDeletePatch 0) ∧
    (load_and_merge blobsEx dbSnap "w" 1 ["a"]).db.durDelete "w" 0 = some [7] := by
  refine ⟨by decide, by decide, by decide, by decide⟩

/-- Claim C8 as stated is false: with `batch_id = 1` and no previous-batch
snapshot present, `load_and_merge` does not skip reconciliation — it raises
(the missing `merged_ids` table makes the delete-patch `CREATE TABLE` fail and
the exception propagates). -/
theorem claim8_counterexample :
    (load_and_merge blobsEx emptyDB "w" 1 ["a"]).err
      = some "catalog error: table merged_ids does not exist" ∧
    ¬ (load_and_merge blobsEx emptyDB "w" 1 ["a"]).err = none := by
  refine ⟨by decide, by decide⟩

/-- Claim C8 (amended): when `batch_id > 0` and the previous batch's snapshot
is missing, `load_and_merge` raises from the reconciliation step rather than
skipping it; the current batch's merged table had already been durably written
and its id snapshot created before the failure, and the working merged table
is left behind (the cleanup never runs). -/
theorem claim8_missing_snapshot_amended (blobs : String → Option (List Row))
    (db : DB) (worker : String) (batch_id : Nat) (names : List String)
    (contents : List (List Row))
    (hload : List.Forall₂ (fun nm c => blobs nm = some c) names contents)
    (hne : names ≠ [])
    (hTT : ∀ i, db.checkpointTT worker batch_id i = none)
    (hb : 0 < batch_id)
    (hsnap : db.mergedIds worker (batch_id - 1) = none) :
    (load_and_merge blobs db worker batch_id names).err.isSome = true ∧
    (load_and_merge blobs db worker batch_id names).db.durTable worker batch_id
      = some (codeMergeT contents) ∧
    (load_and_merge blobs db worker batch_id names).db.mergedIds worker batch_id
      = some ((codeMergeT contents).map (fun r => r.id)) ∧
    (load_and_merge blobs db worker batch_id names).db.merged worker batch_id
      = some (codeMergeT contents) := by
  obtain ⟨he, ht, hmi, hm⟩ := load_and_merge_snapshot_missing blobs db worker
    batch_id names contents hload hne hTT hb hsnap
  exact ⟨by rw [he]; rfl, ht, hmi, hm⟩

/-- Witness for claim C8's amended theorem at the concrete failing input. -/
theorem claim8_witness :
    (load_and_merge blobsEx emptyDB "w" 1 ["a"]).err.isSome = true ∧
    (load_and_merge blobsEx emptyDB "w" 1 ["a"]).db.durTable "w" 1
      = some (codeMergeT [[⟨7, 10⟩]]) ∧
    (load_and_merge blobsEx emptyDB "w" 1 ["a"]).db.mergedIds "w" 1
      = some ((codeMergeT [[⟨7, 10⟩]]).map (fun r => r.id)) ∧
    (load_and_merge blobsEx emptyDB "w" 1 ["a"]).db.merged "w" 1
      = some (codeMergeT [[⟨7, 10⟩]]) :=
  claim8_missing_snapshot_amended blobsEx emptyDB "w" 1 ["a"] [[⟨7, 10⟩]]
    (List.Forall₂.cons (by decide) List.Forall₂.nil) (by decide)
    (fun _ => rfl) (by decide) rfl

/-! Per-identifier semantics of the forward merge loop and of the spec's
reverse merge. -/

theorem mergeStep_filter (m t : List MRow) (x : Nat) :
    (mergeStep m t).filter (fun r => r.id == x) =
    if t.any (fun c => c.id == x) then t.filter (fun r => r.id == x)
    else m.filter (fun r => r.id == x) := by
  unfold mergeStep
  by_cases hdel : m.any (fun r => t.any (fun c => c.id == r.id)) = true
  · rw [if_pos hdel, List.filter_append]
    by_cases hx : t.any (fun c => c.id == x) = true
    · rw [if_pos hx]
      have hleft : (m.filter (fun r => ! t.any (fun c => c.id == r.id))).filter
          (fun r => r.id == x) = [] := by
        rw [List.filter_filter]
        apply List.filter_eq_nil_iff.mpr
        intro a _
        by_cases hax : a.id = x
        · simp [hax, hx]
        · simp [hax]
      rw [hleft, List.nil_append]
    · rw [if_neg hx]
      have hxf : t.any (fun c => c.id == x) = false := by
        simpa using hx
      have ht : t.filter (fun r => r.id == x) = [] := by
        apply List.filter_eq_nil_iff.mpr
        intro a ha hax
        have : t.any (fun c => c.id == x) = true := by
          apply List.any_eq_true.mpr
          refine ⟨a, ha, ?_⟩
          simpa using hax
        rw [this] at hxf
        exact absurd hxf (by simp)
      rw [ht, List.append_nil, List.filter_filter]
      apply List.filter_congr
      intro a _
      by_cases hax : a.id = x
      · simp [hax, hxf]
      · simp [hax]
  · rw [if_neg hdel, List.filter_append]
    have hno : ∀ a ∈ m, t.any (fun c => c.id == a.id) = false := by
      intro a ha
      by_contra hcon
      have : m.any (fun r => t.any (fun c => c.id == r.id)) = true := by
        apply List.any_eq_true.mpr
        exact ⟨a, ha, by simpa using hcon⟩
      exact hdel this
    by_cases hx : t.any (fun c => c.id == x) = true
    · rw [if_pos hx]
      have hm0 : m.filter (fun r => r.id == x) = [] := by
        apply List.filter_eq_nil_iff.mpr
        intro a ha hax
        have hax' : a.id = x := by simpa using hax
        have := hno a ha
        rw [hax'] at this
        rw [this] at hx
        exact absurd hx (by simp)
      rw [hm0, List.nil_append]
    · rw [if_neg hx]
      have ht : t.filter (fun r => r.id == x) = [] := by
        apply List.filter_eq_nil_iff.mpr
        intro a ha hax
        have : t.any (fun c => c.id == x) = true :=
          List.any_eq_true.mpr ⟨a, ha, by simpa using hax⟩
        exact hx this
      rw [ht, List.append_nil]

/-- First step of the per-identifier evaluation of the forward merge: the
later table wins when it mentions `x`. -/
def pickT (x : Nat) (acc t : List MRow) : List MRow :=
  if t.any (fun c => c.id == x) then t.filter (fun r => r.id == x) else acc

theorem mergeFold_filter (x : Nat) :
    ∀ (ts : List (List MRow)) (m0 : List MRow),
      ((ts.foldl mergeStep m0).filter (fun r => r.id == x)) =
      ts.foldl (pickT x) (m0.filter (fun r => r.id == x)) := by
  intro ts
  induction ts with
  | nil => intro m0; rfl
  | cons t ts ih =>
    intro m0
    simp only [List.foldl_cons]
    rw [ih (mergeStep m0 t), mergeStep_filter]
    rfl

theorem specStep_filter (m t : List MRow) (x : Nat) :
    (specStep m t).filter (fun r => r.id == x) =
    if m.any (fun c => c.id == x) then m.filter (fun r => r.id == x)
    else t.filter (fun r => r.id == x) := by
  unfold specStep
  rw [List.filter_append]
  by_cases hx : m.any (fun c => c.id == x) = true
  · rw [if_pos hx]
    have hright : (t.filter (fun r => ! m.any (fun c => c.id == r.id))).filter
        (fun r => r.id == x) = [] := by
      rw [List.filter_filter]
      apply List.filter_eq_nil_iff.mpr
      intro a _
      by_cases hax : a.id = x
      · simp [hax, hx]
      · simp [hax]
    rw [hright, List.append_nil]
  · rw [if_neg hx]
    have hxf : m.any (fun c => c.id == x) = false := by simpa using hx
    have hm0 : m.filter (fun r => r.id == x) = [] := by
      apply List.filter_eq_nil_iff.mpr
      intro a ha hax
      have : m.any (fun c => c.id == x) = true :=
        List.any_eq_true.mpr ⟨a, ha, by simpa using hax⟩
      exact hx this
    rw [hm0, List.nil_append, List.filter_filter]
    apply List.filter_congr
    intro a _
    by_cases hax : a.id = x
    · simp [hax, hxf]
    · simp [hax]

/-- First step of the per-identifier evaluation of the spec's reverse merge:
the accumulated (newer) rows win when non-empty. -/
def pickF (x : Nat) (acc t : List MRow) : List MRow :=
  if acc.isEmpty then t.filter (fun r => r.id == x) else acc

theorem filter_isEmpty_eq_not_any (t : List MRow) (x : Nat) :
    (t.filter (fun r => r.id == x)).isEmpty = ! t.any (fun r => r.id == x) := by
  induction t with
  | nil => rfl
  | cons a t ih =>
    simp only [List.filter_cons, List.any_cons]
    by_cases hax : a.id = x
    · simp [hax]
    · simp [hax, ih]

theorem specFold_filter (x : Nat) :
    ∀ (ts : List (List MRow)) (m0 : List MRow),
      ((ts.foldl specStep m0).filter (fun r => r.id == x)) =
      ts.foldl (pickF x) (m0.filter (fun r => r.id == x)) := by
  intro ts
  induction ts with
  | nil => intro m0; rfl
  | cons t ts ih =>
    intro m0
    simp only [List.foldl_cons]
    rw [ih (specStep m0 t), specStep_filter]
    congr 1
    unfold pickF
    rw [filter_isEmpty_eq_not_any]
    by_cases hx : m0.any (fun c => c.id == x) = true
    · rw [if_pos hx, hx]
      rfl
    · have hxf : m0.any (fun c => c.id == x) = false := by simpa using hx
      rw [if_neg hx, hxf]
      rfl

theorem pickT_nil (x : Nat) (t : List MRow) :
    pickT x [] t = t.filter (fun r => r.id == x) := by
  unfold pickT
  by_cases hx : t.any (fun c => c.id == x) = true
  · rw [if_pos hx]
  · rw [if_neg hx]
    have hxf : t.any (fun c => c.id == x) = false := by simpa using hx
    symm
    apply List.filter_eq_nil_iff.mpr
    intro a ha hax
    have : t.any (fun c => c.id == x) = true :=
      List.any_eq_true.mpr ⟨a, ha, by simpa using hax⟩
    rw [this] at hxf
    exact absurd hxf (by simp)

theorem pickT_foldl (x : Nat) :
    ∀ (ts : List (List MRow)) (a : List MRow),
      ts.foldl (pickT x) a =
      if (ts.foldl (pickT x) []).isEmpty then a else ts.foldl (pickT x) [] := by
  intro ts
  induction ts with
  | nil => intro a; simp
  | cons t ts ih =>
    intro a
    simp only [List.foldl_cons]
    rw [ih (pickT x a t), ih (pickT x [] t)]
    by_cases hR : (ts.foldl (pickT x) []).isEmpty = true
    · rw [if_pos hR, if_pos hR]
      unfold pickT
      by_cases ht : t.any (fun c => c.id == x) = true
      · rw [if_pos ht, if_pos ht]
        have : (t.filter (fun r => r.id == x)).isEmpty = false := by
          rw [filter_isEmpty_eq_not_any]
          cases hany : t.any (fun r => r.id == x)
          · rw [hany] at ht
            exact absurd ht (by simp)
          · rfl
        rw [this]
        simp
      · rw [if_neg ht, if_neg ht]
        simp
    · rw [if_neg hR, if_neg hR]
      have hR' : (ts.foldl (pickT x) []).isEmpty = false := by
        cases h : (ts.foldl (pickT x) []).isEmpty
        · rfl
        · exact absurd h hR
      rw [hR']
      simp

theorem pickF_reverse (x : Nat) :
    ∀ (L : List (List MRow)),
      L.reverse.foldl (pickF x) [] = L.foldl (pickT x) [] := by
  intro L
  induction L with
  | nil => rfl
  | cons t L ih =>
    simp only [List.reverse_cons, List.foldl_append, List.foldl_cons,
      List.foldl_nil, ih]
    rw [pickT_foldl x L (pickT x [] t)]
    unfold pickF
    by_cases hR : (L.foldl (pickT x) []).isEmpty = true
    · rw [if_pos hR, if_pos hR, pickT_nil]
    · rw [if_neg hR, if_neg hR]

theorem codeMergeT_filter (contents : List (List Row)) (h : contents ≠ [])
    (x : Nat) :
    (codeMergeT contents).filter (fun r => r.id == x) =
    (tagAll 0 contents).foldl (pickT x) [] := by
  match hL : tagAll 0 contents with
  | [] =>
    have := tagAll_length contents 0
    rw [hL] at this
    simp only [List.length_nil] at this
    exact absurd (List.length_eq_zero.mp this.symm) h
  | t :: ts =>
    simp only [codeMergeT, hL]
    rw [mergeFold_filter]
    simp only [List.foldl_cons, pickT_nil]

theorem specMerge_filter (contents : List (List Row)) (h : contents ≠ [])
    (x : Nat) :
    (specMerge contents).filter (fun r => r.id == x) =
    (tagAll 0 contents).foldl (pickT x) [] := by
  match hrev : (tagAll 0 contents).reverse with
  | [] =>
    have h1 : tagAll 0 contents = [] := by
      have := congrArg List.reverse hrev
      simpa using this
    have := tagAll_length contents 0
    rw [h1] at this
    simp only [List.length_nil] at this
    exact absurd (List.length_eq_zero.mp this.symm) h
  | t :: ts =>
    simp only [specMerge, hrev]
    rw [specFold_filter]
    have hzero : t.filter (fun r => r.id == x) = pickF x [] t := by
      unfold pickF
      rfl
    rw [hzero]
    have : ts.foldl (pickF x) (pickF x [] t) = (t :: ts).foldl (pickF x) [] := by
      simp [List.foldl_cons]
    rw [this, ← hrev, pickF_reverse]

/-- Claim C4: the merge algorithm specified as reverse iteration with
first-writer-wins (`specMerge`, modelled from the spec's words) and the
implemented forward iteration with delete-then-insert (the merged table
`load_and_merge` durably writes) agree on the identifier-to-record mapping:
for every identifier `x`, the rows with id `x` in the merged table equal the
rows with id `x` in the spec's merged set, for every non-empty ordered blob
list. -/
theorem claim4_refinement (blobs : String → Option (List Row)) (db : DB)
    (worker : String) (batch_id : Nat) (names : List String)
    (contents : List (List Row))
    (hload : List.Forall₂ (fun nm c => blobs nm = some c) names contents)
    (hne : names ≠ [])
    (hTT : ∀ i, db.checkpointTT worker batch_id i = none)
    (hprev : batch_id = 0 ∨
      ∃ prevIds, db.mergedIds worker (batch_id - 1) = some prevIds) :
    (load_and_merge blobs db worker batch_id names).err = none ∧
    ∃ tbl, (load_and_merge blobs db worker batch_id names).db.durTable worker
        batch_id = some tbl ∧
      ∀ x : Nat, tbl.filter (fun r => r.id == x) =
        (specMerge contents).filter (fun r => r.id == x) := by
  obtain ⟨herr, htbl, _⟩ := load_and_merge_ok blobs db worker batch_id names
    contents hload hne hTT hprev
  have hcne : contents ≠ [] := by
    intro hc
    rw [hc] at hload
    cases hload
    exact hne rfl
  refine ⟨herr, codeMergeT contents, htbl, ?_⟩
  intro x
  rw [codeMergeT_filter contents hcne x, specMerge_filter contents hcne x]

/-- Witness for claim C4 at a concrete two-blob batch where id 7 appears in
both blobs. -/
theorem claim4_witness :
    (load_and_merge blobsEx emptyDB "w" 0 ["a", "b"]).err = none ∧
    ∃ tbl, (load_and_merge blobsEx emptyDB "w" 0 ["a", "b"]).db.durTable "w" 0
        = some tbl ∧
      ∀ x : Nat, tbl.filter (fun r => r.id == x) =
        (specMerge [[⟨7, 10⟩], [⟨7, 20⟩, ⟨3, 5⟩]]).filter (fun r => r.id == x) :=
  claim4_refinement blobsEx emptyDB "w" 0 ["a", "b"]
    [[⟨7, 10⟩], [⟨7, 20⟩, ⟨3, 5⟩]]
    (List.Forall₂.cons (by decide)
      (List.Forall₂.cons (by decide) List.Forall₂.nil))
    (by decide) (fun _ => rfl) (Or.inl rfl)

theorem tagBlob_any (i x : Nat) : ∀ (c : List Row),
    (tagBlob i c).any (fun r => r.id == x) = c.any (fun r => r.id == x) := by
  intro c
  induction c with
  | nil => rfl
  | cons r c ih =>
    simp only [tagBlob, List.map_cons, List.any_cons] at ih ⊢
    rw [ih]

theorem tagBlob_filter (i x : Nat) : ∀ (c : List Row),
    (tagBlob i c).filter (fun r => r.id == x)
      = tagBlob i (c.filter (fun r => r.id == x)) := by
  intro c
  induction c with
  | nil => rfl
  | cons r c ih =>
    simp only [tagBlob, List.map_cons, List.filter_cons] at ih ⊢
    by_cases hax : r.id = x
    · simp only [hax, beq_self_eq_true, if_pos]
      rw [ih]
      simp [hax]
    · have : (r.id == x) = false := by simpa using hax
      simp only [this]
      rw [ih]
      simp

theorem tagAll_getD :
    ∀ (cs : List (List Row)) (s k : Nat), k < cs.length →
      (tagAll s cs).getD k [] = tagBlob (s + k) (cs.getD k []) := by
  intro cs
  induction cs with
  | nil => intro s k hk; simp at hk
  | cons c cs ih =>
    intro s k hk
    match k with
    | 0 => simp [tagAll]
    | k + 1 =>
      simp only [tagAll, List.getD_cons_succ]
      rw [ih (s + 1) k (by simpa using Nat.lt_of_succ_lt_succ hk)]
      rw [show s + (k + 1) = (s + 1) + k by omega]

theorem foldl_pickT_no_x (x : Nat) :
    ∀ (B : List (List MRow)) (a : List MRow),
      (∀ t ∈ B, t.any (fun c => c.id == x) = false) →
      B.foldl (pickT x) a = a := by
  intro B
  induction B with
  | nil => intro a _; rfl
  | cons t B ih =>
    intro a h
    simp only [List.foldl_cons]
    have ht := h t (by simp)
    unfold pickT
    rw [ht]
    simp only [Bool.false_eq_true, if_false]
    exact ih a (fun u hu => h u (by simp [hu]))

theorem pickT_last (x : Nat) (L : List (List MRow)) (j : Nat) (hj : j < L.length)
    (hx : (L.getD j []).any (fun c => c.id == x) = true)
    (hlater : ∀ k, j < k → k < L.length →
      (L.getD k []).any (fun c => c.id == x) = false) :
    L.foldl (pickT x) [] = (L.getD j []).filter (fun r => r.id == x) := by
  have hdecomp : L = L.take j ++ L.getD j [] :: L.drop (j + 1) := by
    rw [List.getD_eq_getElem L [] hj]
    rw [← List.drop_eq_getElem_cons hj]
    exact (List.take_append_drop j L).symm
  conv_lhs => rw [hdecomp]
  rw [List.foldl_append, List.foldl_cons]
  have hpick : pickT x (List.foldl (pickT x) [] (L.take j)) (L.getD j [])
      = (L.getD j []).filter (fun r => r.id == x) := by
    unfold pickT
    rw [if_pos hx]
  rw [hpick]
  apply foldl_pickT_no_x
  intro t ht
  obtain ⟨i, hi, hti⟩ := List.mem_iff_getElem.mp ht
  have hlen : (j + 1) + i < L.length := by
    have := List.length_drop (j + 1) L
    omega
  have : t = L.getD ((j + 1) + i) [] := by
    rw [List.getD_eq_getElem L [] hlen, ← hti]
    exact List.getElem_drop L
  rw [this]
  exact hlater ((j + 1) + i) (by omega) hlen

/-- Claim C2: with blobs supplied oldest-first, if identifier `x` occurs in
blob `j` and in no later blob of the batch, then the merged table written by
`load_and_merge` holds exactly blob `j`'s rows for `x` (tagged with
`checkpoint_order = j`): the version from the most recent checkpoint
containing `x` wins. -/
theorem claim2_newest_wins (blobs : String → Option (List Row)) (db : DB)
    (worker : String) (batch_id : Nat) (names : List String)
    (contents : List (List Row)) (x j : Nat)
    (hload : List.Forall₂ (fun nm c => blobs nm = some c) names contents)
    (hne : names ≠ [])
    (hTT : ∀ i, db.checkpointTT worker batch_id i = none)
    (hprev : batch_id = 0 ∨
      ∃ prevIds, db.mergedIds worker (batch_id - 1) = some prevIds)
    (hj : j < contents.length)
    (hx : x ∈ (contents.getD j []).map Row.id)
    (hlater : ∀ k, j < k → k < contents.length →
      x ∉ (contents.getD k []).map Row.id) :
    (load_and_merge blobs db worker batch_id names).err = none ∧
    ∃ tbl, (load_and_merge blobs db worker batch_id names).db.durTable worker
        batch_id = some tbl ∧
      tbl.filter (fun r => r.id == x) =
        tagBlob j ((contents.getD j []).filter (fun r => r.id == x)) := by
  obtain ⟨herr, htbl, _⟩ := load_and_merge_ok blobs db worker batch_id names
    contents hload hne hTT hprev
  have hcne : contents ≠ [] := by
    intro hc
    rw [hc] at hj
    simp at hj
  refine ⟨herr, codeMergeT contents, htbl, ?_⟩
  rw [codeMergeT_filter contents hcne x]
  have hjL : j < (tagAll 0 contents).length := by
    rw [tagAll_length]
    exact hj
  have hgetD : (tagAll 0 contents).getD j [] = tagBlob j (contents.getD j []) := by
    have := tagAll_getD contents 0 j hj
    simpa using this
  have hxL : ((tagAll 0 contents).getD j []).any (fun c => c.id == x) = true := by
    rw [hgetD, tagBlob_any]
    apply List.any_eq_true.mpr
    obtain ⟨r, hr, hrx⟩ := List.mem_map.mp hx
    exact ⟨r, hr, by simpa using hrx⟩
  have hlaterL : ∀ k, j < k → k < (tagAll 0 contents).length →
      ((tagAll 0 contents).getD k []).any (fun c => c.id == x) = false := by
    intro k hjk hk
    rw [tagAll_length] at hk
    have hgetDk : (tagAll 0 contents).getD k [] = tagBlob k (contents.getD k []) := by
      have := tagAll_getD contents 0 k hk
      simpa using this
    rw [hgetDk, tagBlob_any]
    by_contra hcon
    have hany : (contents.getD k []).any (fun r => r.id == x) = true := by
      cases h : (contents.getD k []).any (fun r => r.id == x)
      · exact absurd h hcon
      · rfl
    obtain ⟨r, hr, hrx⟩ := List.any_eq_true.mp hany
    exact hlater k hjk hk (List.mem_map.mpr ⟨r, hr, by simpa using hrx⟩)
  rw [pickT_last x (tagAll 0 contents) j hjL hxL hlaterL, hgetD, tagBlob_filter]

/-- Witness for claim C2: id 7 occurs in blobs 0 and 1; the merged table keeps
blob 1's row for id 7 (value 20, checkpoint order 1). -/
theorem claim2_witness :
    (load_and_merge blobsEx emptyDB "w" 0 ["a", "b"]).err = none ∧
    ∃ tbl, (load_and_merge blobsEx emptyDB "w" 0 ["a", "b"]).db.durTable "w" 0
        = some tbl ∧
      tbl.filter (fun r => r.id == 7) =
        tagBlob 1 (([[(⟨7, 10⟩ : Row)], [⟨7, 20⟩, ⟨3, 5⟩]].getD 1 []).filter
          (fun r => r.id == 7)) :=
  claim2_newest_wins blobsEx emptyDB "w" 0 ["a", "b"]
    [[⟨7, 10⟩], [⟨7, 20⟩, ⟨3, 5⟩]] 7 1
    (List.Forall₂.cons (by decide)
      (List.Forall₂.cons (by decide) List.Forall₂.nil))
    (by decide) (fun _ => rfl) (Or.inl rfl) (by decide) (by decide)
    (by intro k h1 h2; simp only [List.length_cons, List.length_nil] at h2; omega)

/-! Identifier uniqueness lemmas for claim C1. -/

theorem tagBlob_map_id (i : Nat) : ∀ (c : List Row),
    (tagBlob i c).map MRow.id = c.map Row.id := by
  intro c
  induction c with
  | nil => rfl
  | cons r c ih =>
    simp only [tagBlob, List.map_cons] at ih ⊢
    rw [ih]

theorem tagAll_mem : ∀ (cs : List (List Row)) (s : Nat) (t : List MRow),
    t ∈ tagAll s cs → ∃ i c, c ∈ cs ∧ t = tagBlob i c := by
  intro cs
  induction cs with
  | nil => intro s t ht; simp [tagAll] at ht
  | cons c cs ih =>
    intro s t ht
    simp only [tagAll, List.mem_cons] at ht
    rcases ht with ht | ht
    · exact ⟨s, c, by simp, ht⟩
    · obtain ⟨i, c', hc', ht'⟩ := ih (s + 1) t ht
      exact ⟨i, c', by simp [hc'], ht'⟩

theorem mergeStep_nodup (m t : List MRow)
    (hm : (m.map MRow.id).Nodup) (ht : (t.map MRow.id).Nodup) :
    ((mergeStep m t).map MRow.id).Nodup := by
  unfold mergeStep
  rw [List.map_append, List.nodup_append]
  by_cases hdel : m.any (fun r => t.any (fun c => c.id == r.id)) = true
  · rw [if_pos hdel]
    refine ⟨?_, ht, ?_⟩
    · exact hm.sublist ((List.filter_sublist _).map MRow.id)
    · intro a ha hat
      obtain ⟨r, hr, hra⟩ := List.mem_map.mp ha
      obtain ⟨hrm, hrp⟩ := List.mem_filter.mp hr
      obtain ⟨c, hc, hca⟩ := List.mem_map.mp hat
      have hany : t.any (fun c => c.id == r.id) = true := by
        apply List.any_eq_true.mpr
        refine ⟨c, hc, ?_⟩
        rw [hca, hra]
        simp
      rw [hany] at hrp
      exact absurd hrp (by simp)
  · rw [if_neg hdel]
    refine ⟨hm, ht, ?_⟩
    intro a ha hat
    obtain ⟨r, hr, hra⟩ := List.mem_map.mp ha
    obtain ⟨c, hc, hca⟩ := List.mem_map.mp hat
    apply hdel
    apply List.any_eq_true.mpr
    refine ⟨r, hr, ?_⟩
    apply List.any_eq_true.mpr
    refine ⟨c, hc, ?_⟩
    rw [hca, hra]
    simp

theorem mergeFold_nodup :
    ∀ (ts : List (List MRow)) (m0 : List MRow),
      (m0.map MRow.id).Nodup → (∀ t ∈ ts, (t.map MRow.id).Nodup) →
      (((ts.foldl mergeStep m0).map MRow.id)).Nodup := by
  intro ts
  induction ts with
  | nil => intro m0 hm _; exact hm
  | cons t ts ih =>
    intro m0 hm hts
    simp only [List.foldl_cons]
    exact ih (mergeStep m0 t)
      (mergeStep_nodup m0 t hm (hts t (by simp)))
      (fun u hu => hts u (by simp [hu]))

theorem codeMergeT_nodup (contents : List (List Row))
    (h : ∀ c ∈ contents, (c.map Row.id).Nodup) :
    ((codeMergeT contents).map MRow.id).Nodup := by
  match contents with
  | [] => simp [codeMergeT, tagAll]
  | c0 :: cs =>
    have heq : codeMergeT (c0 :: cs) = (tagAll 1 cs).foldl mergeStep (tagBlob 0 c0) := rfl
    rw [heq]
    apply mergeFold_nodup
    · rw [tagBlob_map_id]
      exact h c0 (by simp)
    · intro t ht
      obtain ⟨i, c, hcmem, rfl⟩ := tagAll_mem cs 1 t ht
      rw [tagBlob_map_id]
      exact h c (by simp [hcmem])

/-- Claim C1 (amended): provided every input blob mentions each identifier at
most once within itself, every record identifier appears at most once in the
merged table written by `load_and_merge` — uniqueness is established across
blobs by the delete-then-insert merge, but duplicates inside a single blob are
not removed, so the within-blob hypothesis is necessary. -/
theorem claim1_unique_ids_amended (blobs : String → Option (List Row)) (db : DB)
    (worker : String) (batch_id : Nat) (names : List String)
    (contents : List (List Row))
    (hload : List.Forall₂ (fun nm c => blobs nm = some c) names contents)
    (hne : names ≠ [])
    (hTT : ∀ i, db.checkpointTT worker batch_id i = none)
    (hprev : batch_id = 0 ∨
      ∃ prevIds, db.mergedIds worker (batch_id - 1) = some prevIds)
    (huniq : ∀ c ∈ contents, (c.map Row.id).Nodup) :
    (load_and_merge blobs db worker batch_id names).err = none ∧
    ∃ tbl, (load_and_merge blobs db worker batch_id names).db.durTable worker
        batch_id = some tbl ∧
      (tbl.map MRow.id).Nodup := by
  obtain ⟨herr, htbl, _⟩ := load_and_merge_ok blobs db worker batch_id names
    contents hload hne hTT hprev
  exact ⟨herr, codeMergeT contents, htbl, codeMergeT_nodup contents huniq⟩

/-- Blob store holding a single blob whose two rows share identifier 1. -/
def blobsDup : String → Option (List Row) := fun nm =>
  if nm = "b0" then some [⟨1, 10⟩, ⟨1, 20⟩] else none

/-- Claim C1 as stated is false: a batch whose single blob repeats identifier
1 merges to a durable table in which identifier 1 appears twice — the merge
does not deduplicate within a blob. -/
theorem claim1_counterexample :
    (load_and_merge blobsDup emptyDB "w" 0 ["b0"]).err = none ∧
    (load_and_merge blobsDup emptyDB "w" 0 ["b0"]).db.durTable "w" 0
      = some [⟨0, 1, 10⟩, ⟨0, 1, 20⟩] ∧
    ¬ ((([⟨0, 1, 10⟩, ⟨0, 1, 20⟩] : List MRow).map MRow.id).Nodup) := by
  refine ⟨by decide, by decide, by decide⟩

/-- Witness for claim C1's amended theorem at a concrete two-blob batch with
within-blob-unique identifiers. -/
theorem claim1_witness :
    (load_and_merge blobsEx emptyDB "w" 0 ["a", "b"]).err = none ∧
    ∃ tbl, (load_and_merge blobsEx emptyDB "w" 0 ["a", "b"]).db.durTable "w" 0
        = some tbl ∧
      (tbl.map MRow.id).Nodup :=
  claim1_unique_ids_amended blobsEx emptyDB "w" 0 ["a", "b"]
    [[⟨7, 10⟩], [⟨7, 20⟩, ⟨3, 5⟩]]
    (List.Forall₂.cons (by decide)
      (List.Forall₂.cons (by decide) List.Forall₂.nil))
    (by decide) (fun _ => rfl) (Or.inl rfl) (by decide)

theorem patchOf_mem (prevIds : List Nat) (m : List MRow) (y : Nat) :
    y ∈ patchOf prevIds m ↔ y ∈ prevIds ∧ y ∈ m.map MRow.id := by
  unfold patchOf
  constructor
  · intro hy
    obtain ⟨l, hl, hyl⟩ := List.mem_flatten.mp hy
    obtain ⟨p, hp, rfl⟩ := List.mem_map.mp hl
    obtain ⟨r, hr, hry⟩ := List.mem_map.mp hyl
    obtain ⟨hrm, hrp⟩ := List.mem_filter.mp hr
    have hpy : p = y := hry
    subst hpy
    exact ⟨hp, List.mem_map.mpr ⟨r, hrm, by simpa using hrp⟩⟩
  · intro h
    obtain ⟨hy, hmm⟩ := h
    obtain ⟨r, hrm, hry⟩ := List.mem_map.mp hmm
    apply List.mem_flatten.mpr
    refine ⟨(m.filter (fun r => r.id == y)).map (fun _ => y),
      List.mem_map.mpr ⟨y, hy, rfl⟩, ?_⟩
    exact List.mem_map.mpr ⟨r, List.mem_filter.mpr ⟨hrm, by simpa using hry⟩, rfl⟩

/-- Claim C3: for `batch_id > 0` with the previous batch's snapshot present,
`load_and_merge` writes a delete-patch artifact for `batch_id - 1` whose
identifier set is exactly the intersection of the previous snapshot's id set
with the current batch's merged id set; for `batch_id = 0` the reconciliation
is a no-op and no delete-patch artifact is written anywhere. -/
theorem claim3_delete_patch (blobs : String → Option (List Row)) (db : DB)
    (worker : String) (batch_id : Nat) (names : List String)
    (contents : List (List Row))
    (hload : List.Forall₂ (fun nm c => blobs nm = some c) names contents)
    (hne : names ≠ [])
    (hTT : ∀ i, db.checkpointTT worker batch_id i = none)
    (hprev : batch_id = 0 ∨
      ∃ prevIds, db.mergedIds worker (batch_id - 1) = some prevIds) :
    (load_and_merge blobs db worker batch_id names).err = none ∧
    (∀ prevIds, 0 < batch_id →
      db.mergedIds worker (batch_id - 1) = some prevIds →
      ∃ curIds patch,
        (load_and_merge blobs db worker batch_id names).db.mergedIds worker
          batch_id = some curIds ∧
        (load_and_merge blobs db worker batch_id names).db.durDelete worker
          (batch_id - 1) = some patch ∧
        ∀ y, y ∈ patch ↔ y ∈ prevIds ∧ y ∈ curIds) ∧
    (batch_id = 0 →
      (load_and_merge blobs db worker batch_id names).db.durDelete
        = db.durDelete) := by
  obtain ⟨herr, _, hmi, hdel, hzero, _⟩ := load_and_merge_ok blobs db worker
    batch_id names contents hload hne hTT hprev
  refine ⟨herr, ?_, hzero⟩
  intro prevIds hb hsnap
  obtain ⟨hd, _⟩ := hdel prevIds hb hsnap
  refine ⟨(codeMergeT contents).map (fun r => r.id),
    patchOf prevIds (codeMergeT contents), hmi, hd, ?_⟩
  intro y
  exact patchOf_mem prevIds (codeMergeT contents) y

/-- Witness for claim C3: batch 1 over one blob (current ids `{7, 3}`) against
the batch-0 snapshot `{7, 9}`; the delete patch's id set is the intersection. -/
theorem claim3_witness :
    (load_and_merge blobsEx dbSnap "w" 1 ["b"]).err = none ∧
    (∃ curIds patch,
      (load_and_merge blobsEx dbSnap "w" 1 ["b"]).db.mergedIds "w" 1
        = some curIds ∧
      (load_and_merge blobsEx dbSnap "w" 1 ["b"]).db.durDelete "w" 0
        = some patch ∧
      ∀ y, y ∈ patch ↔ y ∈ ([7, 9] : List Nat) ∧ y ∈ curIds) :=
  have h := claim3_delete_patch blobsEx dbSnap "w" 1 ["b"] [[⟨7, 20⟩, ⟨3, 5⟩]]
    (List.Forall₂.cons (by decide) List.Forall₂.nil)
    (by decide) (fun _ => rfl) (Or.inr ⟨[7, 9], by decide⟩)
  ⟨h.1, h.2.1 [7, 9] (by decide) (by decide)⟩
